import Mathlib

/-!
# Verification of the hevy-mcp-server analytics core

A shallow embedding, in Lean 4, of the analytics core of the
`hevy-mcp-server` TypeScript repository, together with theorems settling the
specification claims about it.

Embedding conventions:
* JavaScript numbers are modelled as `ℚ` (every finite IEEE double is a
  rational); `Math.pow` with a fractional exponent (the Lombardi formula)
  is modelled with real-number exponentiation `Real.rpow`.
* ISO date strings are modelled by their epoch-millisecond value
  (`new Date(s).getTime()`), a natural number, since the code only ever
  compares dates after converting them with `getTime()`.
* A JavaScript `Map` (and a plain object used as a dictionary) is modelled
  as an association list in insertion order: `set` on a present key updates
  the value in place (keeping the key's position, as `Map.set` does), and
  appends the pair otherwise.
* `Array.prototype.sort` is required by the ECMAScript standard to be
  stable; with a consistent comparator the stable sorted order is unique,
  so it is modelled by `List.insertionSort` (stable, structurally
  recursive, hence evaluable by `decide`).
* A rejected `Promise` is modelled by `Except.error`; `Promise.all` is
  modelled by sequencing, which yields the same value when every page
  succeeds and an error when any page fails, which is all the `try/catch`
  at the call site can observe.
-/

namespace HevyMCP

/-! ## Data model (src/src/types) -/

/-- Set kind: the union type `'normal' | 'warmup' | 'dropset' | 'failure'`. -/
inductive SetKind where
  | normal
  | warmup
  | dropset
  | failure
deriving DecidableEq

/-- `ExerciseSet` from `src/src/types`: a set within an exercise.
Fields the analytics never reads (`distance_meters`, `duration_seconds`,
`rpe`, `custom_metric`) are omitted. -/
structure ExerciseSet where
  index : ℕ
  type : SetKind
  weight_kg : ℚ
  reps : ℕ
deriving DecidableEq

/-- `WorkoutExercise`: an exercise within a workout. -/
structure WorkoutExercise where
  index : ℕ
  title : String
  notes : String
  exercise_template_id : String
  superset_id : Option ℤ
  sets : List ExerciseSet
deriving DecidableEq

/-- `Workout` from the Hevy API. Timestamps are epoch milliseconds. -/
structure Workout where
  id : String
  title : String
  description : String
  start_time : ℕ
  end_time : ℕ
  updated_at : ℕ
  created_at : ℕ
  exercises : List WorkoutExercise
deriving DecidableEq

/-- `ExerciseTemplate`: read-only reference data. -/
structure ExerciseTemplate where
  id : String
  title : String
  type : String
  primary_muscle_group : String
  secondary_muscle_groups : List String
  equipment : String
  is_custom : Bool
deriving DecidableEq

/-- `Routine` (src/src/types/Routine.ts). Only passed through by the core. -/
structure Routine where
  id : String
  name : String
  description : String
  exercises : List String
  createdAt : ℕ
  updatedAt : ℕ
deriving DecidableEq

/-! ## JavaScript `Map` / dictionary model

An association list in insertion order.  `Map.prototype.set` on a present
key overwrites the value but keeps the key's original position; on an
absent key it appends. -/

/-- `m.has(k)`. -/
def mapHas {κ ν : Type} [BEq κ] (m : List (κ × ν)) (k : κ) : Bool :=
  m.any (fun e => e.1 == k)

/-- `m.get(k)` (`none` models `undefined`). -/
def mapGet {κ ν : Type} [BEq κ] (m : List (κ × ν)) (k : κ) : Option ν :=
  (m.find? (fun e => e.1 == k)).map (fun e => e.2)

/-- `m.set(k, v)`. -/
def mapSet {κ ν : Type} [BEq κ] (m : List (κ × ν)) (k : κ) (v : ν) : List (κ × ν) :=
  if mapHas m k then m.map (fun e => if e.1 == k then (k, v) else e)
  else m ++ [(k, v)]

/-- `Math.round` (JavaScript rounds half toward positive infinity). -/
def jsRound (q : ℚ) : ℤ := ⌊q + 1/2⌋

/-! ## OneRepMaxEstimator (src/src/utils, 1RM calculator revision) -/

/-- The `OneRepMaxFormula` enum. -/
inductive OneRepMaxFormula where
  | brzycki
  | epley
  | lombardi
  | oconner
deriving DecidableEq

/-- `brzyckiFormula`: weight × (36 / (37 − reps)), with the source's
`reps === 1` early return and the `reps >= 37` clamp to `weight * 36`. -/
def brzyckiFormula (weight reps : ℚ) : ℚ :=
  if reps = 1 then weight
  else if 37 ≤ reps then weight * 36
  else weight * (36 / (37 - reps))

/-- `epleyFormula`: weight × (1 + 0.0333 × reps), with the `reps === 1`
early return. -/
def epleyFormula (weight reps : ℚ) : ℚ :=
  if reps = 1 then weight
  else weight * (1 + 0.0333 * reps)

/-- `lombardiFormula`: weight × reps ^ 0.1, with the `reps === 1` early
return.  `Math.pow` with exponent 0.1 is modelled by real exponentiation. -/
noncomputable def lombardiFormula (weight reps : ℚ) : ℝ :=
  if reps = 1 then (weight : ℝ)
  else (weight : ℝ) * (reps : ℝ) ^ ((1 : ℝ) / 10)

/-- `oconnerFormula`: weight × (1 + 0.025 × reps), with the `reps === 1`
early return. -/
def oconnerFormula (weight reps : ℚ) : ℚ :=
  if reps = 1 then weight
  else weight * (1 + 0.025 * reps)

/-- The `switch (formula)` dispatch of `calculateEstimated1RM`.  The
`default` case of the switch (returning Brzycki) is unreachable because the
enum is closed. -/
noncomputable def applyFormula : OneRepMaxFormula → ℚ → ℚ → ℝ
  | .brzycki, w, r => (brzyckiFormula w r : ℝ)
  | .epley, w, r => (epleyFormula w r : ℝ)
  | .lombardi, w, r => lombardiFormula w r
  | .oconner, w, r => (oconnerFormula w r : ℝ)

/-- `Number.isInteger` on a rational. -/
def isIntegerQ (q : ℚ) : Bool := q.den == 1

/-- `calculateEstimated1RM(weight, reps, formula = BRZYCKI, maxAllowedReps = 15)`.
Guard order follows the source exactly: weight check, reps checks, the
`reps === 1` early return, then the `maxAllowedReps` accuracy limit. -/
noncomputable def calculateEstimated1RM (weight reps : ℚ)
    (formula : OneRepMaxFormula := .brzycki) (maxAllowedReps : ℚ := 15) :
    Option ℝ :=
  if weight ≤ 0 then none
  else if reps ≤ 0 ∨ ¬ isIntegerQ reps then none
  else if reps = 1 then some (weight : ℝ)
  else if maxAllowedReps < reps then none
  else some (applyFormula formula weight reps)

/-- The default-formula (Brzycki) specialization of `calculateEstimated1RM`,
kept rational-valued so that the callers in `hevyService.ts` (which always
use the default formula) stay computable.  `calculateEstimated1RM_brzycki_eq`
proves it agrees with `calculateEstimated1RM`. -/
def calculateEstimated1RMBrzycki (weight reps : ℚ)
    (maxAllowedReps : ℚ := 15) : Option ℚ :=
  if weight ≤ 0 then none
  else if reps ≤ 0 ∨ ¬ isIntegerQ reps then none
  else if reps = 1 then some weight
  else if maxAllowedReps < reps then none
  else some (brzyckiFormula weight reps)

/-! ## PagedFetcher (src/src/services/hevyService.ts, fetchAll* functions)

`WorkoutResponse`, `ExerciseTemplateResponse` and `RoutineResponse` all
have the shape `{items, page, pageCount}`; only the name of the items
field differs per resource, so one parametrized structure models all
three.  A page fetch that may reject is `ℕ → Except String (PageResponse α)`. -/

/-- A page response from the Hevy API: `{items, page, pageCount}`. -/
structure PageResponse (α : Type) where
  items : List α
  page : ℕ
  pageCount : ℕ
deriving DecidableEq

/-- `Promise.all` over the page requests for `count` pages starting at page
`start`.  Sequencing returns the pages in input order when all succeed and
an error when any fails — exactly what the `try/catch` around the
`await Promise.all` can observe. -/
def seqPages {α : Type} (f : ℕ → Except String (PageResponse α)) :
    ℕ → ℕ → Except String (List (PageResponse α))
  | _, 0 => .ok []
  | start, n + 1 =>
    match f start with
    | .error e => .error e
    | .ok p =>
      match seqPages f (start + 1) n with
      | .error e => .error e
      | .ok rest => .ok (p :: rest)

/-- The shared body of `fetchAllWorkouts` / `fetchAllExerciseTemplates` /
`fetchAllRoutines` (the three are textually identical up to the resource):
fetch page 1, read `pageCount`, return page 1's items if `pageCount ≤ 1`,
otherwise fetch pages `2..pageCount` concurrently and concatenate.  The
surrounding `try { ... } catch { return [] }` turns any failure into `[]`. -/
def fetchAllPaged {α : Type} (f : ℕ → Except String (PageResponse α)) : List α :=
  match f 1 with
  | .error _ => []
  | .ok firstPageResponse =>
    if firstPageResponse.pageCount ≤ 1 then firstPageResponse.items
    else
      match seqPages f 2 (firstPageResponse.pageCount - 1) with
      | .error _ => []
      | .ok pageResponses =>
        firstPageResponse.items ++ pageResponses.flatMap (fun r => r.items)

/-- `fetchAllWorkouts`, abstracted over the page fetch
`hevyApi.getWorkouts({page, pageSize: 10})`. -/
def fetchAllWorkouts (f : ℕ → Except String (PageResponse Workout)) : List Workout :=
  fetchAllPaged f

/-- `fetchAllExerciseTemplates`, abstracted over the page fetch
`hevyApi.getExercises({page, pageSize: 10})`. -/
def fetchAllExerciseTemplates (f : ℕ → Except String (PageResponse ExerciseTemplate)) :
    List ExerciseTemplate :=
  fetchAllPaged f

/-- `fetchAllRoutines`, abstracted over the page fetch
`hevyApi.getRoutines({page, pageSize: 10})`. -/
def fetchAllRoutines (f : ℕ → Except String (PageResponse Routine)) : List Routine :=
  fetchAllPaged f

/-! ## ProgressTracker (src/src/services/hevyService.ts, second revision:
`analyzeProgressForExercise`, `calculateRecordsByReps`) -/

/-- One set in a `ProgressSession` (`{index, type, weightKg, reps}`). -/
structure ProgressSet where
  index : ℕ
  type : SetKind
  weightKg : ℚ
  reps : ℕ
deriving DecidableEq

/-- `ExerciseProgressData` as produced by the second-revision
`analyzeProgressForExercise`: a workout's date with the per-set breakdown. -/
structure ExerciseProgressData where
  date : ℕ
  sets : List ProgressSet
deriving DecidableEq

/-- The descending-date order used by
`sort((a, b) => new Date(b.date).getTime() - new Date(a.date).getTime())`. -/
def sessionDateDesc (a b : ExerciseProgressData) : Prop := b.date ≤ a.date

instance : DecidableRel sessionDateDesc := fun a b => Nat.decLe b.date a.date

instance : IsTotal ExerciseProgressData sessionDateDesc :=
  ⟨fun a b => Nat.le_total b.date a.date⟩

instance : IsTrans ExerciseProgressData sessionDateDesc :=
  ⟨fun _ _ _ h h' => Nat.le_trans h' h⟩

/-- The projection applied to each workout kept by
`analyzeProgressForExercise`: its date together with the per-set breakdown
of the first exercise entry matching the id (the source's non-null
assertion `find(...)!` is total there because of the preceding filter; the
`none` branch is unreachable). -/
def sessionOf (exerciseId : String) (w : Workout) : ExerciseProgressData :=
  { date := w.start_time
    sets :=
      match w.exercises.find? (fun ex => ex.exercise_template_id == exerciseId) with
      | some exercise =>
        exercise.sets.map (fun s =>
          { index := s.index, type := s.type, weightKg := s.weight_kg, reps := s.reps })
      | none => [] }

/-- `analyzeProgressForExercise(exerciseId, workouts)` (second revision):
keep the workouts containing the exercise, project each with `sessionOf`,
then sort by date descending (most recent first). -/
def analyzeProgressForExercise (exerciseId : String) (workouts : List Workout) :
    List ExerciseProgressData :=
  let exerciseDataFromWorkouts :=
    (workouts.filter (fun w =>
      w.exercises.any (fun ex => ex.exercise_template_id == exerciseId))).map
      (sessionOf exerciseId)
  exerciseDataFromWorkouts.insertionSort sessionDateDesc

/-- A row of the records table: `{reps, weight_kg, date}`. -/
structure RepRecord where
  reps : ℕ
  weight_kg : ℚ
  date : ℕ
deriving DecidableEq

/-- The ascending-reps order used by `sort((a, b) => a.reps - b.reps)`. -/
def repRecordAsc (a b : RepRecord) : Prop := a.reps ≤ b.reps

instance : DecidableRel repRecordAsc := fun a b => Nat.decLe a.reps b.reps

instance : IsTotal RepRecord repRecordAsc := ⟨fun a b => Nat.le_total a.reps b.reps⟩

instance : IsTrans RepRecord repRecordAsc := ⟨fun _ _ _ h h' => Nat.le_trans h h'⟩

/-- The record-update applied for one `(reps, weight, date)` observation:
set the entry when no record exists for this rep count or when the weight
is strictly heavier (`!has(reps) || weight > get(reps).weight_kg`). -/
def recUpd (m : List (ℕ × ℚ × ℕ)) (k : ℕ) (wt : ℚ) (d : ℕ) : List (ℕ × ℚ × ℕ) :=
  match mapGet m k with
  | none => mapSet m k (wt, d)
  | some r => if wt > r.1 then mapSet m k (wt, d) else m

/-- Processing of one set by `calculateRecordsByReps`: warmup sets are
skipped, otherwise the records map is updated. -/
def recordStep (date : ℕ) (m : List (ℕ × ℚ × ℕ)) (s : ProgressSet) : List (ℕ × ℚ × ℕ) :=
  if s.type == SetKind.warmup then m
  else recUpd m s.reps s.weightKg date

/-- `calculateRecordsByReps(progressData)`: fold every non-warm-up set of
every session into the best-weight-per-rep-count map, then convert the map
entries to rows and sort ascending by rep count. -/
def calculateRecordsByReps (progressData : List ExerciseProgressData) : List RepRecord :=
  let recordsByReps :=
    progressData.foldl (fun m workout => workout.sets.foldl (recordStep workout.date) m) []
  ((recordsByReps.map (fun e => RepRecord.mk e.1 e.2.1 e.2.2)).insertionSort repRecordAsc)

/-! ## ExerciseSummaryBuilder (src/src/services/hevyService.ts, second
revision: `getWorkouts`, `getExercises`)

`getExercises` first awaits `fetchAllExerciseTemplates()` and
`getWorkouts(startDate, endDate)`; the embedding takes those two fetched
lists as parameters and models everything after the awaits. -/

/-- The descending start-time order used by `getWorkouts`'s
`sort((a, b) => new Date(b.start_time).getTime() - new Date(a.start_time).getTime())`. -/
def workoutDateDesc (a b : Workout) : Prop := b.start_time ≤ a.start_time

instance : DecidableRel workoutDateDesc := fun a b => Nat.decLe b.start_time a.start_time

instance : IsTotal Workout workoutDateDesc := ⟨fun a b => Nat.le_total b.start_time a.start_time⟩

instance : IsTrans Workout workoutDateDesc := ⟨fun _ _ _ h h' => Nat.le_trans h' h⟩

/-- `getWorkouts(startDate?, endDate?)` after the fetch: keep the workouts
inside the inclusive date range (an absent bound always passes) and sort
by start time, most recent first. -/
def getWorkouts (allWorkouts : List Workout) (startDate endDate : Option ℕ) : List Workout :=
  let filteredWorkouts := allWorkouts.filter (fun w =>
    (match startDate with
     | none => true
     | some sd => sd ≤ w.start_time) &&
    (match endDate with
     | none => true
     | some ed => w.start_time ≤ ed))
  filteredWorkouts.insertionSort workoutDateDesc

/-- `template.title.toLowerCase().includes(searchTerm.toLowerCase())`,
modelled character-wise (`String.toLower` in Lean maps `Char.toLower`
over the characters, matching `toLowerCase` on the data at hand). -/
def containsCI (hay needle : String) : Bool :=
  decide ((needle.data.map Char.toLower) <:+: (hay.data.map Char.toLower))

/-- Processing of one set inside `getExercises`'s records loop:
`if (set.type === 'warmup' || !set.weight_kg || !set.reps) continue;`
then the max-weight-per-rep-count update on this exercise's records map
(present in `exerciseRecords` by the initialization just before the loop). -/
def processSet (workoutDate : ℕ) (exerciseId : String)
    (records : List (String × List (ℕ × ℚ × ℕ))) (s : ExerciseSet) :
    List (String × List (ℕ × ℚ × ℕ)) :=
  if s.type == SetKind.warmup || s.weight_kg == 0 || s.reps == 0 then records
  else
    let recordsMap := (mapGet records exerciseId).getD []
    mapSet records exerciseId (recUpd recordsMap s.reps s.weight_kg workoutDate)

/-- The body of `getExercises`'s `for (const workout of allWorkouts)` loop:
walk the workout's exercises, skipping ids outside the filtered set,
collecting each seen id once (the `exercisesInWorkout` set), initializing
`exerciseRecords` entries, folding the sets, and finally incrementing the
frequency of every id seen in this workout. -/
def processExerciseEntry (workoutDate : ℕ) (filteredExerciseIds : List String)
    (acc : List String × List (String × List (ℕ × ℚ × ℕ))) (exercise : WorkoutExercise) :
    List String × List (String × List (ℕ × ℚ × ℕ)) :=
  let exerciseId := exercise.exercise_template_id
  if ¬ (filteredExerciseIds.contains exerciseId) then acc
  else
    let exercisesInWorkout :=
      if acc.1.contains exerciseId then acc.1 else acc.1 ++ [exerciseId]
    let records₀ :=
      if mapHas acc.2 exerciseId then acc.2 else mapSet acc.2 exerciseId []
    let records₁ := exercise.sets.foldl (processSet workoutDate exerciseId) records₀
    (exercisesInWorkout, records₁)

def processWorkout (filteredExerciseIds : List String)
    (st : List (String × ℕ) × List (String × List (ℕ × ℚ × ℕ))) (w : Workout) :
    List (String × ℕ) × List (String × List (ℕ × ℚ × ℕ)) :=
  let inner := w.exercises.foldl (processExerciseEntry w.start_time filteredExerciseIds)
    ([], st.2)
  let exerciseFrequency := inner.1.foldl
    (fun freq exerciseId => mapSet freq exerciseId ((mapGet freq exerciseId).getD 0 + 1)) st.1
  (exerciseFrequency, inner.2)

/-- The per-exercise estimated-1RM pass: the highest valid Brzycki
estimate over the rep/weight records (strictly-greater updates only), with
the date of the record producing it, rounded to one decimal place
(`Math.round(x * 10) / 10`). -/
def computeEstimated1RM (records : List (ℕ × ℚ × ℕ)) : Option (ℚ × ℕ) :=
  let highest := records.foldl
    (fun (acc : Option (ℚ × ℕ)) e =>
      match calculateEstimated1RMBrzycki e.2.1 (e.1 : ℚ) with
      | none => acc
      | some oneRM =>
        match acc with
        | none => some (oneRM, e.2.2)
        | some h => if oneRM > h.1 then some (oneRM, e.2.2) else acc)
    none
  highest.map (fun p => ((jsRound (p.1 * 10) : ℚ) / 10, p.2))

/-- The per-exercise actual-1RM pass: the maximum weight across all rep
counts (strictly-greater updates from `maxWeight = 0`), kept only when
positive. -/
def computeActual1RM (records : List (ℕ × ℚ × ℕ)) : Option (ℚ × ℕ) :=
  let best := records.foldl
    (fun (acc : ℚ × ℕ) e => if e.2.1 > acc.1 then (e.2.1, e.2.2) else acc) (0, 0)
  if best.1 > 0 then some best else none

/-- The search-term filter of `getExercises`: case-insensitive substring
match on the template title when a term is given. -/
def filterTemplates (searchTerm : Option String)
    (allExerciseTemplates : List ExerciseTemplate) : List ExerciseTemplate :=
  match searchTerm with
  | some s => allExerciseTemplates.filter (fun template => containsCI template.title s)
  | none => allExerciseTemplates

/-- The `exerciseOneRepMax` map: for each exercise's records, the highest
valid estimate (skipping exercises with no valid estimate). -/
def estimated1RMMap (exerciseRecords : List (String × List (ℕ × ℚ × ℕ))) :
    List (String × (ℚ × ℕ)) :=
  exerciseRecords.foldl
    (fun m e =>
      match computeEstimated1RM e.2 with
      | some v => mapSet m e.1 v
      | none => m) []

/-- The `exerciseActualOneRM` map: for each exercise's records, the
heaviest weight (skipping exercises with no positive weight). -/
def actual1RMMap (exerciseRecords : List (String × List (ℕ × ℚ × ℕ))) :
    List (String × (ℚ × ℕ)) :=
  exerciseRecords.foldl
    (fun m e =>
      match computeActual1RM e.2 with
      | some v => mapSet m e.1 v
      | none => m) []

/-- One element of `getExercises`'s result array. -/
structure ExerciseData where
  id : String
  name : String
  frequency : ℕ
  estimated1RM : Option (ℚ × ℕ)
  actual1RM : Option (ℚ × ℕ)
  type : String
  primary_muscle_group : String
  secondary_muscle_groups : List String
  equipment : String
deriving DecidableEq

/-- The descending-frequency order used by
`sort((a, b) => b.frequency - a.frequency)`. -/
def freqDesc (a b : ExerciseData) : Prop := b.frequency ≤ a.frequency

instance : DecidableRel freqDesc := fun a b => Nat.decLe b.frequency a.frequency

instance : IsTotal ExerciseData freqDesc := ⟨fun a b => Nat.le_total b.frequency a.frequency⟩

instance : IsTrans ExerciseData freqDesc := ⟨fun _ _ _ h h' => Nat.le_trans h' h⟩

/-- `getExercises(searchTerm?, excludeUnused = false, startDate?, endDate?)`
after its two awaits, taking the fetched template list and the fetched
workout list (which `getWorkouts` then filters and sorts).  An absent
`searchTerm` is `none`; a present empty string behaves identically to an
absent one both in the source (falsy) and here (`containsCI _ "" = true`). -/
def getExercises (allExerciseTemplates : List ExerciseTemplate)
    (allWorkoutsRaw : List Workout) (searchTerm : Option String)
    (excludeUnused : Bool := false) (startDate endDate : Option ℕ := none) :
    List ExerciseData :=
  let allWorkouts := getWorkouts allWorkoutsRaw startDate endDate
  if allWorkouts.isEmpty || allExerciseTemplates.isEmpty then []
  else
    let filteredExerciseTemplates := filterTemplates searchTerm allExerciseTemplates
    if filteredExerciseTemplates.isEmpty then []
    else
      let filteredExerciseIds := filteredExerciseTemplates.map (fun t => t.id)
      let st := allWorkouts.foldl (processWorkout filteredExerciseIds) ([], [])
      let exerciseFrequency := st.1
      let exerciseRecords := st.2
      let exerciseOneRepMax := estimated1RMMap exerciseRecords
      let exerciseActualOneRM := actual1RMMap exerciseRecords
      let exerciseData := filteredExerciseTemplates.map (fun template =>
        { id := template.id
          name := template.title
          frequency := (mapGet exerciseFrequency template.id).getD 0
          estimated1RM := mapGet exerciseOneRepMax template.id
          actual1RM := mapGet exerciseActualOneRM template.id
          type := template.type
          primary_muscle_group := template.primary_muscle_group
          secondary_muscle_groups := template.secondary_muscle_groups
          equipment := template.equipment : ExerciseData })
      let exerciseData' :=
        if excludeUnused then exerciseData.filter (fun e => 0 < e.frequency) else exerciseData
      exerciseData'.insertionSort freqDesc

/-! ## MuscleVolumeAggregator (`calculateVolumeByMuscleGroup`, identical in
both copies of the unnamed service revision) -/

/-- One element of `calculateVolumeByMuscleGroup`'s result. -/
structure MuscleVolumeData where
  muscleGroup : String
  volume : ℤ
  sets : ℕ
deriving DecidableEq

/-- `template = exercises.find(e => e.id === exercise.exercise_template_id)`. -/
def resolveTemplate (exercises : List ExerciseTemplate) (exerciseTemplateId : String) :
    Option ExerciseTemplate :=
  exercises.find? (fun e => e.id == exerciseTemplateId)

/-- The two parallel dictionaries `volumeByMuscle` / `setsByMuscle`,
modelled as one insertion-ordered association list
`muscle ↦ (volume, sets)`.  The guard `if (!volumeByMuscle[muscleGroup])`
is truthiness on a number: it re-initializes BOTH counters whenever the
stored volume is absent or exactly 0. -/
def muscleInit (vols : List (String × ℚ × ℕ)) (muscleGroup : String) :
    List (String × ℚ × ℕ) :=
  match mapGet vols muscleGroup with
  | none => mapSet vols muscleGroup (0, 0)
  | some v => if v.1 = 0 then mapSet vols muscleGroup (0, 0) else vols

/-- The per-set accumulation: sets with truthy weight and reps add their
volume and count once; all other sets only count. -/
def muscleAddSet (muscleGroup : String) (vols : List (String × ℚ × ℕ))
    (s : ExerciseSet) : List (String × ℚ × ℕ) :=
  let cur := (mapGet vols muscleGroup).getD (0, 0)
  if s.weight_kg ≠ 0 ∧ s.reps ≠ 0 then
    mapSet vols muscleGroup (cur.1 + s.weight_kg * (s.reps : ℚ), cur.2 + 1)
  else
    mapSet vols muscleGroup (cur.1, cur.2 + 1)

/-- The body of the muscle-volume double loop for one exercise entry:
resolve the template (skipping the exercise when unresolved), initialize
the muscle bucket, then accumulate every set. -/
def muscleAddExercise (exercises : List ExerciseTemplate)
    (vols : List (String × ℚ × ℕ)) (exercise : WorkoutExercise) :
    List (String × ℚ × ℕ) :=
  match resolveTemplate exercises exercise.exercise_template_id with
  | none => vols
  | some template =>
    let muscleGroup := template.primary_muscle_group
    exercise.sets.foldl (muscleAddSet muscleGroup) (muscleInit vols muscleGroup)

/-- The descending-volume order on muscle keys used by
`Object.keys(volumeByMuscle).sort((a, b) => volumeByMuscle[b] - volumeByMuscle[a])`. -/
def volDesc (vols : List (String × ℚ × ℕ)) (a b : String) : Prop :=
  ((mapGet vols b).getD (0, 0)).1 ≤ ((mapGet vols a).getD (0, 0)).1

instance (vols : List (String × ℚ × ℕ)) : DecidableRel (volDesc vols) := fun _ _ =>
  inferInstanceAs (Decidable (_ ≤ _))

/-- `calculateVolumeByMuscleGroup(workouts, exercises)` (unnamed service
revision, both copies): accumulate volume and set count per primary muscle
group over every workout, then emit the buckets sorted descending by
volume, with the volume rounded. -/
def calculateVolumeByMuscleGroup (workouts : List Workout)
    (exercises : List ExerciseTemplate) : List MuscleVolumeData :=
  let vols := workouts.foldl
    (fun vols w => w.exercises.foldl (muscleAddExercise exercises) vols) []
  let sortedMuscles := (vols.map (fun e => e.1)).insertionSort (volDesc vols)
  sortedMuscles.map (fun muscle =>
    let v := (mapGet vols muscle).getD (0, 0)
    { muscleGroup := muscle, volume := jsRound v.1, sets := v.2 })

/-! ## Derived notions used to state and prove the claims

These do not model new source code; they name the observation streams and
predicates the theorems quantify over. -/

/-- The unique-key invariant of the association-list maps (every map the
source builds satisfies it, since `Map.set` never duplicates a key). -/
def KeysNodup {κ ν : Type} (m : List (κ × ν)) : Prop := (m.map Prod.fst).Nodup

/-- The better of a current record and a new `(weight, date)` observation:
the new one wins exactly when strictly heavier. -/
def optBetter (cur : Option (ℚ × ℕ)) (e : ℚ × ℕ) : ℚ × ℕ :=
  match cur with
  | none => e
  | some r => if e.1 > r.1 then e else r

/-- Folding a stream of `(weight, date)` observations for one fixed rep
count into a current record. -/
def keyFold (cur : Option (ℚ × ℕ)) (ys : List (ℚ × ℕ)) : Option (ℚ × ℕ) :=
  ys.foldl (fun c e => some (optBetter c e)) cur

/-- Folding a stream of `(reps, weight, date)` observations into a records
map with `recUpd`. -/
def streamFold (m : List (ℕ × ℚ × ℕ)) (xs : List (ℕ × ℚ × ℕ)) : List (ℕ × ℚ × ℕ) :=
  xs.foldl (fun m e => recUpd m e.1 e.2.1 e.2.2) m

/-- The `(reps, weight, date)` observations `calculateRecordsByReps` folds,
in processing order: every non-warm-up set of every session. -/
def sessionStream (sessions : List ExerciseProgressData) : List (ℕ × ℚ × ℕ) :=
  sessions.flatMap (fun wk =>
    (wk.sets.filter (fun s => !(s.type == SetKind.warmup))).map
      (fun s => (s.reps, s.weightKg, wk.date)))

/-- Workout `w`'s session for the exercise has a non-warm-up set of `k`
reps at weight `wt` (sets come from the first matching exercise entry,
exactly as `analyzeProgressForExercise` collects them). -/
def hasRecordSet (exerciseId : String) (w : Workout) (k : ℕ) (wt : ℚ) : Prop :=
  ∃ s ∈ (sessionOf exerciseId w).sets,
    s.type ≠ SetKind.warmup ∧ s.reps = k ∧ s.weightKg = wt

/-- The qualification test of `getExercises`'s records loop: not a warmup
and truthy weight and reps. -/
def qualifiesGE (s : ExerciseSet) : Bool :=
  !(s.type == SetKind.warmup) && !(s.weight_kg == 0) && !(s.reps == 0)

/-- The `(reps, weight, date)` observations one workout's exercise entries
contribute for template `t` in `getExercises`'s records loop. -/
def exStream (t : String) (d : ℕ) (exs : List WorkoutExercise) : List (ℕ × ℚ × ℕ) :=
  (exs.filter (fun ex => ex.exercise_template_id == t)).flatMap
    (fun ex => (ex.sets.filter qualifiesGE).map (fun s => (s.reps, s.weight_kg, d)))

/-- The full observation stream for template `t` over a workout list. -/
def wsStream (t : String) (ws : List Workout) : List (ℕ × ℚ × ℕ) :=
  ws.flatMap (fun w => exStream t w.start_time w.exercises)

/-- Workout `w` has a qualifying (non-warm-up, truthy weight and reps) set
of `k` reps at weight `wt` in some entry of template `t`. -/
def hasQualifyingSet (t : String) (w : Workout) (k : ℕ) (wt : ℚ) : Prop :=
  ∃ ex ∈ w.exercises, ex.exercise_template_id = t ∧
    ∃ s ∈ ex.sets, s.type ≠ SetKind.warmup ∧ s.weight_kg ≠ 0 ∧ s.reps ≠ 0 ∧
      s.reps = k ∧ s.weight_kg = wt

/-- The exercise entry resolves (via `find?` on the template list) to a
template whose primary muscle group is `g`. -/
def resolvesTo (exercises : List ExerciseTemplate) (g : String)
    (ex : WorkoutExercise) : Bool :=
  match resolveTemplate exercises ex.exercise_template_id with
  | some template => template.primary_muscle_group == g
  | none => false

/-- Every set (warmup or not) of every exercise resolving to muscle group
`g`, across the workout list, in processing order. -/
def muscleSetsOf (exercises : List ExerciseTemplate) (g : String)
    (ws : List Workout) : List ExerciseSet :=
  ws.flatMap (fun w =>
    (w.exercises.filter (resolvesTo exercises g)).flatMap (fun ex => ex.sets))

/-- All sets in the collection have positive weight and positive reps. -/
def allSetsPositive (ws : List Workout) : Prop :=
  ∀ w ∈ ws, ∀ ex ∈ w.exercises, ∀ s ∈ ex.sets, 0 < s.weight_kg ∧ 0 < s.reps

/-- The total volume of a list of sets: Σ weight · reps. -/
def volSum (sets : List ExerciseSet) : ℚ :=
  (sets.map (fun s => s.weight_kg * (s.reps : ℚ))).sum

/-- Every set (warmup or not) of every entry of one exercise list resolving
to muscle group `g`, in processing order (the one-workout slice of
`muscleSetsOf`). -/
def muscleSetsOfExs (exercises : List ExerciseTemplate) (g : String)
    (exs : List WorkoutExercise) : List ExerciseSet :=
  (exs.filter (resolvesTo exercises g)).flatMap (fun ex => ex.sets)

/-- Invariant of the muscle-volume fold at one muscle key: either the
bucket is absent and no resolved set has been processed, or it stores
exactly the running volume sum and set count of the processed stream. -/
def VolInv (vols : List (String × ℚ × ℕ)) (g : String)
    (stream : List ExerciseSet) : Prop :=
  (mapGet vols g = none ∧ stream = []) ∨
    mapGet vols g = some (volSum stream, stream.length)

/-! ## Concrete test data (used by witnesses and counterexamples) -/

/-- A workout with no exercises, used as a page item. -/
def sampleWorkout1 : Workout :=
  { id := "workout1", title := "Leg Day", description := "", start_time := 1000,
    end_time := 2000, updated_at := 2000, created_at := 1000, exercises := [] }

/-- A second workout with no exercises, used as a page item. -/
def sampleWorkout2 : Workout :=
  { id := "workout2", title := "Push Day", description := "", start_time := 3000,
    end_time := 4000, updated_at := 4000, created_at := 3000, exercises := [] }

/-- A two-page fetcher whose every request succeeds. -/
def twoPageFetcher : ℕ → Except String (PageResponse Workout) :=
  fun page =>
    if page = 1 then .ok { items := [sampleWorkout1], page := 1, pageCount := 2 }
    else if page = 2 then .ok { items := [sampleWorkout2], page := 2, pageCount := 2 }
    else .error "not found"

/-- A fetcher whose first page succeeds (reporting two pages) but whose
second page rejects: the fetch-all operation sees partial data and an
upstream failure. -/
def partialFailureFetcher : ℕ → Except String (PageResponse Workout) :=
  fun page =>
    if page = 1 then .ok { items := [sampleWorkout1], page := 1, pageCount := 2 }
    else .error "API error"

/-- A set with the given kind, weight and reps (index 0). -/
def mkSetEntry (t : SetKind) (w : ℚ) (r : ℕ) : ExerciseSet :=
  { index := 0, type := t, weight_kg := w, reps := r }

/-- A one-exercise workout at the given date for the given template id. -/
def mkSimpleWorkout (wid : String) (d : ℕ) (exerciseTemplateId : String)
    (sets : List ExerciseSet) : Workout :=
  { id := wid, title := "Workout", description := "", start_time := d, end_time := d,
    updated_at := d, created_at := d,
    exercises := [{ index := 0, title := "Exercise", notes := "",
                    exercise_template_id := exerciseTemplateId, superset_id := none,
                    sets := sets }] }

/-- A squat template whose primary muscle group is Legs. -/
def squatTemplate : ExerciseTemplate :=
  { id := "squat1", title := "Squat (Barbell)", type := "weight_reps",
    primary_muscle_group := "Legs", secondary_muscle_groups := [], equipment := "barbell",
    is_custom := false }

/-- Earlier workout achieving 100 kg × 5 (for the rep-record tie). -/
def tieWorkoutEarly : Workout :=
  mkSimpleWorkout "wEarly" 1000 "squat1" [mkSetEntry .normal 100 5]

/-- Later workout achieving the same 100 kg × 5. -/
def tieWorkoutLate : Workout :=
  mkSimpleWorkout "wLate" 2000 "squat1" [mkSetEntry .normal 100 5]

/-- A workout containing only a warmup set of 60 kg × 10. -/
def warmupOnlyWorkout : Workout :=
  mkSimpleWorkout "wWarm" 1000 "squat1" [mkSetEntry .warmup 60 10]

/-- A workout in which the squat appears as two separate exercise entries. -/
def doubleEntryWorkout : Workout :=
  { id := "wDouble", title := "Leg Day", description := "", start_time := 5000,
    end_time := 5000, updated_at := 5000, created_at := 5000,
    exercises :=
      [{ index := 0, title := "Squat", notes := "", exercise_template_id := "squat1",
         superset_id := none, sets := [mkSetEntry .normal 100 5] },
       { index := 1, title := "Squat again", notes := "", exercise_template_id := "squat1",
         superset_id := none, sets := [mkSetEntry .normal 80 8] }] }

/-- A workout with a 110 kg × 8 set and a 90 kg × 1 set. -/
def heavyEightWorkout : Workout :=
  mkSimpleWorkout "wHeavy" 7000 "squat1"
    [mkSetEntry .normal 110 8, mkSetEntry .normal 90 1]

/-! # Theorems -/

/-! ## Association-list map lemmas -/

section MapLemmas

set_option linter.unusedSectionVars false

variable {κ ν : Type} [BEq κ] [LawfulBEq κ]

theorem mapHas_cons (e : κ × ν) (t : List (κ × ν)) (k : κ) :
    mapHas (e :: t) k = (e.1 == k || mapHas t k) := by
  simp [mapHas]

theorem mapGet_cons (e : κ × ν) (t : List (κ × ν)) (k : κ) :
    mapGet (e :: t) k = if e.1 == k then some e.2 else mapGet t k := by
  by_cases h : e.1 == k <;> simp [mapGet, List.find?_cons, h]

theorem mapGet_cons_pos {e : κ × ν} {t : List (κ × ν)} {k : κ}
    (h : (e.1 == k) = true) : mapGet (e :: t) k = some e.2 := by
  rw [mapGet_cons, if_pos h]

theorem mapGet_cons_neg {e : κ × ν} {t : List (κ × ν)} {k : κ}
    (h : (e.1 == k) = false) : mapGet (e :: t) k = mapGet t k := by
  rw [mapGet_cons]
  simp [h]

theorem mapGet_none_iff (m : List (κ × ν)) (k : κ) :
    mapGet m k = none ↔ mapHas m k = false := by
  induction m with
  | nil => simp [mapGet, mapHas]
  | cons e t ih =>
    by_cases h : e.1 == k <;> simp [mapGet_cons, mapHas_cons, h, ih]

theorem mapGet_append (m₁ m₂ : List (κ × ν)) (k : κ) :
    mapGet (m₁ ++ m₂) k =
      match mapGet m₁ k with
      | some v => some v
      | none => mapGet m₂ k := by
  induction m₁ with
  | nil => simp [mapGet]
  | cons e t ih =>
    by_cases h : e.1 == k <;> simp [mapGet_cons, h, ih]

theorem mapGet_map_update (m : List (κ × ν)) (k : κ) (v : ν)
    (h : mapHas m k = true) :
    mapGet (m.map (fun e => if e.1 == k then (k, v) else e)) k = some v := by
  induction m with
  | nil => simp [mapHas] at h
  | cons e t ih =>
    rw [mapHas_cons] at h
    by_cases he : e.1 == k
    · simp [he, mapGet_cons]
    · have ht : mapHas t k = true := by simpa [he] using h
      simp [he, mapGet_cons, ih ht]

theorem mapGet_map_update_ne (m : List (κ × ν)) (k k' : κ) (v : ν)
    (h : k' ≠ k) :
    mapGet (m.map (fun e => if e.1 == k then (k, v) else e)) k' = mapGet m k' := by
  induction m with
  | nil => simp [mapGet]
  | cons e t ih =>
    by_cases he : e.1 == k
    · have hkk : (k == k') = false := by
        simp only [beq_eq_false_iff_ne]
        exact fun hkk => h hkk.symm
      have he' : (e.1 == k') = false := by
        simp only [beq_eq_false_iff_ne]
        rw [eq_of_beq he]
        exact fun hkk => h hkk.symm
      simp [he, mapGet_cons, hkk, he', ih]
    · by_cases he' : e.1 == k' <;> simp [he, mapGet_cons, he', ih]

theorem mapGet_mapSet_self (m : List (κ × ν)) (k : κ) (v : ν) :
    mapGet (mapSet m k v) k = some v := by
  unfold mapSet
  split_ifs with h
  · exact mapGet_map_update m k v h
  · rw [mapGet_append, (mapGet_none_iff m k).mpr (by simpa using h)]
    simp [mapGet_cons]

theorem mapGet_mapSet_ne (m : List (κ × ν)) (k k' : κ) (v : ν) (h : k' ≠ k) :
    mapGet (mapSet m k v) k' = mapGet m k' := by
  unfold mapSet
  split_ifs with hh
  · exact mapGet_map_update_ne m k k' v h
  · rw [mapGet_append]
    cases hcase : mapGet m k' with
    | some w => rfl
    | none =>
      have hkk : (k == k') = false := by
        simp only [beq_eq_false_iff_ne]
        exact fun hkk => h hkk.symm
      show mapGet [(k, v)] k' = none
      rw [mapGet_cons, hkk]
      simp [mapGet]

theorem mapGet_some_mem {m : List (κ × ν)} {k : κ} {v : ν}
    (h : mapGet m k = some v) : (k, v) ∈ m := by
  unfold mapGet at h
  cases hf : m.find? (fun e => e.1 == k) with
  | none => rw [hf] at h; cases h
  | some e =>
    rw [hf] at h
    have hm := List.mem_of_find?_eq_some hf
    have hp := List.find?_some hf
    have hk : e.1 = k := eq_of_beq (by simpa using hp)
    have hv : e.2 = v := by simpa using h
    have he : e = (k, v) := Prod.ext hk hv
    rw [← he]
    exact hm

theorem mem_mapSet {m : List (κ × ν)} {k : κ} {v : ν} {p : κ × ν}
    (h : p ∈ mapSet m k v) : p = (k, v) ∨ p ∈ m := by
  unfold mapSet at h
  split_ifs at h with hh
  · rcases List.mem_map.mp h with ⟨e, he, heq⟩
    by_cases hc : e.1 == k
    · simp only [hc, if_pos] at heq
      exact Or.inl heq.symm
    · simp only [hc] at heq
      simp only [Bool.false_eq_true, if_false] at heq
      exact Or.inr (heq ▸ he)
  · rcases List.mem_append.mp h with h | h
    · exact Or.inr h
    · simp only [List.mem_singleton] at h
      exact Or.inl h

theorem mapSet_keys (m : List (κ × ν)) (k : κ) (v : ν) :
    (mapSet m k v).map Prod.fst =
      if mapHas m k then m.map Prod.fst else m.map Prod.fst ++ [k] := by
  unfold mapSet
  split_ifs with h
  · rw [List.map_map]
    refine List.map_congr_left (fun e _ => ?_)
    by_cases hc : e.1 == k
    · simp [hc, (eq_of_beq hc).symm]
    · simp [hc]
  · simp

theorem KeysNodup_mapSet {m : List (κ × ν)} (k : κ) (v : ν)
    (h : KeysNodup m) : KeysNodup (mapSet m k v) := by
  unfold KeysNodup
  rw [mapSet_keys]
  split_ifs with hh
  · exact h
  · rw [List.nodup_append]
    refine ⟨h, List.nodup_singleton k, ?_⟩
    intro a ha hb
    simp only [List.mem_singleton] at hb
    rcases List.mem_map.mp ha with ⟨e, he, heq⟩
    have hhas : mapHas m k = true := by
      unfold mapHas
      exact List.any_eq_true.mpr ⟨e, he, by simp [heq, hb]⟩
    exact absurd hhas (by simpa using hh)

theorem mapGet_of_mem {m : List (κ × ν)} {k : κ} {v : ν}
    (hn : KeysNodup m) (hm : (k, v) ∈ m) : mapGet m k = some v := by
  induction m with
  | nil => cases hm
  | cons e t ih =>
    unfold KeysNodup at hn
    rw [List.map_cons, List.nodup_cons] at hn
    rcases List.mem_cons.mp hm with h | h
    · rw [← h, mapGet_cons]
      simp
    · have hk : k ∈ t.map Prod.fst := List.mem_map.mpr ⟨(k, v), h, rfl⟩
      have he : (e.1 == k) = false := by
        simp only [beq_eq_false_iff_ne]
        intro heq
        exact hn.1 (heq ▸ hk)
      rw [mapGet_cons, he]
      exact ih hn.2 h

theorem mapHas_of_mapGet_some {m : List (κ × ν)} {k : κ} {v : ν}
    (h : mapGet m k = some v) : mapHas m k = true := by
  by_contra hc
  rw [(mapGet_none_iff m k).mpr (Bool.not_eq_true _ ▸ hc)] at h
  cases h

end MapLemmas

/-- A fold preserves any invariant its step preserves. -/
theorem foldl_preserve {σ β : Type} (P : σ → Prop) (step : σ → β → σ)
    (h : ∀ s b, P s → P (step s b)) :
    ∀ (xs : List β) (s : σ), P s → P (xs.foldl step s) := by
  intro xs
  induction xs with
  | nil => exact fun s hs => hs
  | cons b t ih => exact fun s hs => ih (step s b) (h s b hs)

/-! ## OneRepMaxEstimator: C7, C8, C9 -/

/-- The Brzycki specialization agrees with `calculateEstimated1RM` at the
default formula: `getExercises`'s computable estimate path is faithful. -/
theorem calculateEstimated1RM_brzycki_eq (w r m : ℚ) :
    calculateEstimated1RM w r .brzycki m =
      (calculateEstimated1RMBrzycki w r m).map (fun q => (q : ℝ)) := by
  unfold calculateEstimated1RM calculateEstimated1RMBrzycki
  split_ifs <;> simp [applyFormula]

/-- C7, as stated, is false: the claim quantifies over every
`maxAllowedReps` m, but the source returns the weight at `reps = 1`
*before* checking `reps > maxAllowedReps`, so at `w = 100`, `r = 1`,
`m = 0` the estimator returns `some 100` although `r > m`. -/
theorem C7_repsOverMax_counterexample :
    ¬ (calculateEstimated1RM 100 1 .brzycki 0 = none ↔
        ((100 : ℚ) ≤ 0 ∨ (1 : ℚ) ≤ 0 ∨ ¬ isIntegerQ 1 ∨ (0 : ℚ) < 1)) := by
  intro h
  have h1 : calculateEstimated1RM 100 1 .brzycki 0 = some (100 : ℝ) := by
    unfold calculateEstimated1RM
    norm_num [isIntegerQ]
  have h2 := h.mpr (Or.inr (Or.inr (Or.inr one_pos)))
  rw [h1] at h2
  exact Option.some_ne_none _ h2

/-- C7 amended: the estimator returns no estimate exactly when the weight
is nonpositive, the rep count is nonpositive or non-integer, or the rep
count exceeds `maxAllowedReps` *and is not 1* (the `reps === 1` early
return precedes the accuracy-limit check). -/
theorem C7_invalidity_amended (w r m : ℚ) (f : OneRepMaxFormula) :
    calculateEstimated1RM w r f m = none ↔
      (w ≤ 0 ∨ r ≤ 0 ∨ ¬ isIntegerQ r ∨ (m < r ∧ r ≠ 1)) := by
  unfold calculateEstimated1RM
  split_ifs with h1 h2 h3 h4 <;> simp_all
  tauto

/-- C7 amended, witnessed at concrete inputs: `calculateEstimated1RM 100 (3/2) .epley 15`
is `none` (non-integer reps). -/
theorem C7_invalidity_amended_witness :
    calculateEstimated1RM 100 (3 / 2) .epley 15 = none :=
  (C7_invalidity_amended 100 (3 / 2) 15 .epley).mpr
    (Or.inr (Or.inr (Or.inl (by norm_num [isIntegerQ, Rat.den_div_eq_of_coprime]))))

/-- C8: at `reps = 1` the estimate is exactly the weight, for every formula
and every valid weight `w > 0` (and in fact every `maxAllowedReps`). -/
theorem C8_reps_one_identity (w : ℚ) (f : OneRepMaxFormula) (m : ℚ) (hw : 0 < w) :
    calculateEstimated1RM w 1 f m = some (w : ℝ) := by
  unfold calculateEstimated1RM
  rw [if_neg (not_le.mpr hw), if_neg (by norm_num [isIntegerQ]), if_pos rfl]

/-- C8 witnessed at `w = 100` with the Lombardi formula. -/
theorem C8_reps_one_identity_witness :
    (0 : ℚ) < 100 ∧ calculateEstimated1RM 100 1 .lombardi 15 = some (100 : ℝ) :=
  ⟨by norm_num, C8_reps_one_identity 100 .lombardi 15 (by norm_num)⟩

/-- Numeric bound for the Lombardi estimate at (100, 5):
`100 × 5 ^ 0.1` lies within 0.05 of 117.48 (the tolerance the repository's
own test uses: `toBeCloseTo(117.48, 1)`). -/
theorem lombardi_100_5_bound :
    |(100 : ℝ) * (5 : ℝ) ^ ((1 : ℝ) / 10) - 117.48| < 0.05 := by
  have hy : (0 : ℝ) < (5 : ℝ) ^ ((1 : ℝ) / 10) :=
    Real.rpow_pos_of_pos (by norm_num) _
  have hpow : ((5 : ℝ) ^ ((1 : ℝ) / 10)) ^ (10 : ℕ) = 5 := by
    rw [← Real.rpow_natCast ((5 : ℝ) ^ ((1 : ℝ) / 10)) 10,
      ← Real.rpow_mul (by norm_num : (0 : ℝ) ≤ 5)]
    norm_num
  have hlow : (1.1743 : ℝ) < (5 : ℝ) ^ ((1 : ℝ) / 10) := by
    have h10 : (1.1743 : ℝ) ^ (10 : ℕ) < ((5 : ℝ) ^ ((1 : ℝ) / 10)) ^ (10 : ℕ) := by
      rw [hpow]; norm_num
    exact lt_of_pow_lt_pow_left₀ 10 (le_of_lt hy) h10
  have hhigh : (5 : ℝ) ^ ((1 : ℝ) / 10) < 1.1753 := by
    have h10 : ((5 : ℝ) ^ ((1 : ℝ) / 10)) ^ (10 : ℕ) < (1.1753 : ℝ) ^ (10 : ℕ) := by
      rw [hpow]; norm_num
    exact lt_of_pow_lt_pow_left₀ 10 (by norm_num) h10
  rw [abs_lt]
  constructor <;> nlinarith

/-- C9: at (weight 100, reps 5) the four formulas give 112.5 (Brzycki,
exactly), 116.65 (Epley, exactly), ≈117.48 (Lombardi, within the 0.05
tolerance of the repository's own test) and 112.5 (O'Conner, exactly). -/
theorem C9_estimates_100_5 :
    calculateEstimated1RM 100 5 .brzycki 15 = some (112.5 : ℝ)
    ∧ calculateEstimated1RM 100 5 .epley 15 = some (116.65 : ℝ)
    ∧ (∃ x : ℝ, calculateEstimated1RM 100 5 .lombardi 15 = some x
        ∧ |x - 117.48| < 0.05)
    ∧ calculateEstimated1RM 100 5 .oconner 15 = some (112.5 : ℝ) := by
  have hval : ∀ f, calculateEstimated1RM 100 5 f 15 = some (applyFormula f 100 5) := by
    intro f
    unfold calculateEstimated1RM
    norm_num [isIntegerQ]
  refine ⟨?_, ?_, ⟨applyFormula .lombardi 100 5, hval _, ?_⟩, ?_⟩
  · rw [hval]
    unfold applyFormula brzyckiFormula
    norm_num
  · rw [hval]
    unfold applyFormula epleyFormula
    norm_num
  · simp only [applyFormula, lombardiFormula]
    rw [if_neg (by norm_num : ¬ (5 : ℚ) = 1)]
    push_cast
    exact lombardi_100_5_bound
  · rw [hval]
    unfold applyFormula oconnerFormula
    norm_num

/-! ## PagedFetcher: C1, C4 -/

/-- If every request for the `rest.length` pages starting at page `start`
succeeds with the corresponding element of `rest`, the sequenced fetch
returns `rest`. -/
theorem seqPages_ok {α : Type} (f : ℕ → Except String (PageResponse α)) :
    ∀ (rest : List (PageResponse α)) (start : ℕ),
      (∀ i (hi : i < rest.length), f (start + i) = .ok (rest.get ⟨i, hi⟩)) →
      seqPages f start rest.length = .ok rest := by
  intro rest
  induction rest with
  | nil => intro start _; rfl
  | cons p t ih =>
    intro start hp
    have h0 : f start = .ok p := by
      have := hp 0 (Nat.succ_pos _)
      simpa using this
    have ht : seqPages f (start + 1) t.length = .ok t := by
      refine ih (start + 1) (fun i hi => ?_)
      have := hp (i + 1) (Nat.succ_lt_succ hi)
      have harith : start + (i + 1) = start + 1 + i := by omega
      rw [harith] at this
      simpa using this
    show (match f start with
      | .error e => .error e
      | .ok p' =>
        match seqPages f (start + 1) t.length with
        | .error e => .error e
        | .ok rest' => Except.ok (p' :: rest')) = Except.ok (p :: t)
    rw [h0, ht]

/-- C4: when page 1 reports `pageCount` pages and the requests for pages
`2..pageCount` all succeed (with responses listed in ascending page order
in `rest`), the fetch-all operation returns page 1's items followed by the
later pages' items in ascending page order, and its length is the sum of
the per-page item counts.  With `pageCount ≤ 1`, `rest` is empty and the
result is page 1's items directly. -/
theorem C4_fetchAll_ascending_concat (f : ℕ → Except String (PageResponse Workout))
    (p1 : PageResponse Workout) (rest : List (PageResponse Workout))
    (h1 : f 1 = .ok p1) (hlen : rest.length = p1.pageCount - 1)
    (hp : ∀ i (hi : i < rest.length), f (2 + i) = .ok (rest.get ⟨i, hi⟩)) :
    fetchAllWorkouts f = p1.items ++ rest.flatMap (fun r => r.items)
    ∧ (fetchAllWorkouts f).length
        = ((p1 :: rest).map (fun r => r.items.length)).sum := by
  have hmain : fetchAllWorkouts f = p1.items ++ rest.flatMap (fun r => r.items) := by
    unfold fetchAllWorkouts fetchAllPaged
    rw [h1]
    by_cases hc : p1.pageCount ≤ 1
    · have hrest : rest = [] := by
        have : rest.length = 0 := by omega
        exact List.eq_nil_of_length_eq_zero this
      subst hrest
      simp [hc]
    · have hseq : seqPages f 2 (p1.pageCount - 1) = .ok rest := by
        rw [← hlen]
        exact seqPages_ok f rest 2 hp
      simp [hc, hseq]
  refine ⟨hmain, ?_⟩
  rw [hmain]
  simp only [List.length_append, List.length_flatMap, List.map_cons, List.sum_cons]
  rfl

/-- C4 witnessed on a concrete two-page fetcher. -/
theorem C4_fetchAll_ascending_concat_witness :
    fetchAllWorkouts twoPageFetcher = [sampleWorkout1, sampleWorkout2]
    ∧ (fetchAllWorkouts twoPageFetcher).length = 2 := by
  have h := C4_fetchAll_ascending_concat twoPageFetcher
    { items := [sampleWorkout1], page := 1, pageCount := 2 }
    [{ items := [sampleWorkout2], page := 2, pageCount := 2 }]
    rfl rfl (fun i hi => by
      match i, hi with
      | 0, _ => exact rfl)
  exact ⟨h.1, by rw [h.1]; rfl⟩

/-- C1 evaluated at its failing inputs: when any page request rejects, the
fetch-all operations catch the error and return the empty array instead of
propagating the failure — here even though page 1 succeeded with data.
The repository's own test
(`src/services/__tests__/hevyService.test.ts`, "fetchAllWorkouts")
expects `rejects.toThrow('API error')`, which this behavior contradicts. -/
theorem C1_failure_returns_empty :
    fetchAllWorkouts partialFailureFetcher = []
    ∧ fetchAllExerciseTemplates (fun _ => .error "API error") = []
    ∧ fetchAllRoutines (fun _ => .error "API error") = [] :=
  ⟨rfl, rfl, rfl⟩

/-! ## ExerciseSummaryBuilder: C10 -/

/-- C10: when the fetched workout list or the fetched template list is
empty, `getExercises` returns the empty sequence — for every search term,
`excludeUnused` flag and date range, in particular with
`excludeUnused = false`.  Hence summaries (zero-frequency ones included)
only ever arise when at least one workout and one template were fetched. -/
theorem C10_empty_fetch_empty_result (allExerciseTemplates : List ExerciseTemplate)
    (allWorkoutsRaw : List Workout) (searchTerm : Option String) (excludeUnused : Bool)
    (startDate endDate : Option ℕ)
    (h : allWorkoutsRaw = [] ∨ allExerciseTemplates = []) :
    getExercises allExerciseTemplates allWorkoutsRaw searchTerm excludeUnused
      startDate endDate = [] := by
  rcases h with h | h <;> subst h <;> simp [getExercises, getWorkouts]

/-- C10 witnessed: no workouts were fetched, `excludeUnused = false`. -/
theorem C10_empty_fetch_empty_result_witness :
    getExercises [squatTemplate] [] none false none none = [] :=
  C10_empty_fetch_empty_result [squatTemplate] [] none false none none (Or.inl rfl)

/-! ## Record-fold lemmas: `recUpd` streams and their per-key behavior -/

theorem recUpd_mapGet_self (m : List (ℕ × ℚ × ℕ)) (k : ℕ) (wt : ℚ) (d : ℕ) :
    mapGet (recUpd m k wt d) k = some (optBetter (mapGet m k) (wt, d)) := by
  unfold recUpd optBetter
  cases hc : mapGet m k with
  | none => simp [mapGet_mapSet_self]
  | some r =>
    by_cases hw : wt > r.1
    · simp [hw, mapGet_mapSet_self]
    · simp [hw, hc]

theorem recUpd_mapGet_ne (m : List (ℕ × ℚ × ℕ)) (k k' : ℕ) (wt : ℚ) (d : ℕ)
    (h : k' ≠ k) :
    mapGet (recUpd m k wt d) k' = mapGet m k' := by
  unfold recUpd
  cases hc : mapGet m k with
  | none => exact mapGet_mapSet_ne m k k' _ h
  | some r =>
    by_cases hw : wt > r.1
    · simp only [hw, if_pos]
      exact mapGet_mapSet_ne m k k' _ h
    · simp [hw]

theorem KeysNodup_recUpd {m : List (ℕ × ℚ × ℕ)} (k : ℕ) (wt : ℚ) (d : ℕ)
    (h : KeysNodup m) : KeysNodup (recUpd m k wt d) := by
  unfold recUpd
  cases mapGet m k with
  | none => exact KeysNodup_mapSet k _ h
  | some r =>
    by_cases hw : wt > r.1
    · simp only [hw, if_pos]
      exact KeysNodup_mapSet k _ h
    · simpa [hw] using h

theorem KeysNodup_streamFold (xs : List (ℕ × ℚ × ℕ)) {m : List (ℕ × ℚ × ℕ)}
    (h : KeysNodup m) : KeysNodup (streamFold m xs) :=
  foldl_preserve KeysNodup _ (fun _ e hm => KeysNodup_recUpd e.1 e.2.1 e.2.2 hm) xs m h

theorem streamFold_append (m : List (ℕ × ℚ × ℕ)) (xs ys : List (ℕ × ℚ × ℕ)) :
    streamFold m (xs ++ ys) = streamFold (streamFold m xs) ys :=
  List.foldl_append _ _ _ _

theorem streamFold_mapGet (xs : List (ℕ × ℚ × ℕ)) :
    ∀ (m : List (ℕ × ℚ × ℕ)) (k : ℕ),
      mapGet (streamFold m xs) k =
        keyFold (mapGet m k) ((xs.filter (fun e => e.1 == k)).map (fun e => e.2)) := by
  induction xs with
  | nil => intro m k; rfl
  | cons e xs ih =>
    intro m k
    show mapGet (streamFold (recUpd m e.1 e.2.1 e.2.2) xs) k = _
    by_cases he : e.1 == k
    · have hek : e.1 = k := eq_of_beq he
      rw [ih, ← hek, recUpd_mapGet_self]
      simp [List.filter_cons, he, keyFold, hek]
    · rw [ih, recUpd_mapGet_ne m e.1 k _ _ (fun hkk => by simp [hkk] at he)]
      simp [List.filter_cons, he]

theorem keyFold_some_char :
    ∀ (ys : List (ℚ × ℕ)) (p q : ℚ × ℕ), keyFold (some p) ys = some q →
      (p.1 ≤ q.1 ∧ ∀ e ∈ ys, e.1 ≤ q.1) ∧
      ((q = p ∧ ∀ e ∈ ys, ¬ (p.1 < e.1)) ∨
       (p.1 < q.1 ∧ ys.find? (fun e => e.1 == q.1) = some q)) := by
  intro ys
  induction ys with
  | nil =>
    intro p q h
    have hq : q = p := by simpa [keyFold] using h.symm
    subst hq
    exact ⟨⟨le_refl _, by simp⟩, Or.inl ⟨rfl, by simp⟩⟩
  | cons e ys ih =>
    intro p q h
    by_cases he : p.1 < e.1
    · have hcur : keyFold (some e) ys = some q := by
        simpa [keyFold, optBetter, he] using h
      obtain ⟨⟨he1, hall⟩, hdisj⟩ := ih e q hcur
      refine ⟨⟨le_of_lt (lt_of_lt_of_le he he1), ?_⟩, Or.inr ⟨lt_of_lt_of_le he he1, ?_⟩⟩
      · intro x hx
        rcases List.mem_cons.mp hx with hx | hx
        · exact hx ▸ he1
        · exact hall x hx
      · rcases hdisj with ⟨hq, _⟩ | ⟨hlt, hfind⟩
        · subst hq
          simp [List.find?_cons]
        · have hne : (e.1 == q.1) = false := by
            simp only [beq_eq_false_iff_ne]
            exact ne_of_lt hlt
          simp [List.find?_cons, hne, hfind]
    · have hcur : keyFold (some p) ys = some q := by
        simpa [keyFold, optBetter, he] using h
      obtain ⟨⟨hp1, hall⟩, hdisj⟩ := ih p q hcur
      refine ⟨⟨hp1, ?_⟩, ?_⟩
      · intro x hx
        rcases List.mem_cons.mp hx with hx | hx
        · exact hx ▸ le_trans (le_of_not_lt he) hp1
        · exact hall x hx
      · rcases hdisj with ⟨hq, hnone⟩ | ⟨hlt, hfind⟩
        · refine Or.inl ⟨hq, ?_⟩
          intro x hx
          rcases List.mem_cons.mp hx with hx | hx
          · exact hx ▸ he
          · exact hnone x hx
        · refine Or.inr ⟨hlt, ?_⟩
          have hne : (e.1 == q.1) = false := by
            simp only [beq_eq_false_iff_ne]
            exact ne_of_lt (lt_of_le_of_lt (le_of_not_lt he) hlt)
          simp [List.find?_cons, hne, hfind]

theorem keyFold_none_char (ys : List (ℚ × ℕ)) (q : ℚ × ℕ)
    (h : keyFold none ys = some q) :
    (∀ e ∈ ys, e.1 ≤ q.1) ∧ ys.find? (fun e => e.1 == q.1) = some q := by
  cases ys with
  | nil => cases h
  | cons e ys =>
    have hcur : keyFold (some e) ys = some q := by simpa [keyFold, optBetter] using h
    obtain ⟨⟨he1, hall⟩, hdisj⟩ := keyFold_some_char ys e q hcur
    constructor
    · intro x hx
      rcases List.mem_cons.mp hx with hx | hx
      · exact hx ▸ he1
      · exact hall x hx
    · rcases hdisj with ⟨hq, _⟩ | ⟨hlt, hfind⟩
      · subst hq
        simp [List.find?_cons]
      · have hne : (e.1 == q.1) = false := by
          simp only [beq_eq_false_iff_ne]
          exact ne_of_lt hlt
        simp [List.find?_cons, hne, hfind]

theorem keyFold_some_exists : ∀ (ys : List (ℚ × ℕ)) (p : ℚ × ℕ),
    ∃ q, keyFold (some p) ys = some q := by
  intro ys
  induction ys with
  | nil => exact fun p => ⟨p, rfl⟩
  | cons e ys ih =>
    intro p
    show ∃ q, keyFold (some (optBetter (some p) e)) ys = some q
    exact ih _

theorem keyFold_none_eq_none_iff (ys : List (ℚ × ℕ)) :
    keyFold none ys = none ↔ ys = [] := by
  cases ys with
  | nil => simp [keyFold]
  | cons e ys =>
    constructor
    · intro h
      obtain ⟨q, hq⟩ := keyFold_some_exists ys (optBetter none e)
      rw [show keyFold none (e :: ys) = keyFold (some (optBetter none e)) ys from rfl, hq] at h
      cases h
    · intro h
      cases h

/-- In a pairwise-ordered list, the element `find?` returns relates to
every other element satisfying the predicate. -/
theorem find?_pairwise {α : Type} {p : α → Bool} {r : α → α → Prop} :
    ∀ {ys : List α} {q : α}, ys.Pairwise r → ys.find? p = some q →
      ∀ e ∈ ys, p e = true → e = q ∨ r q e := by
  intro ys
  induction ys with
  | nil => intro q _ h; cases h
  | cons a t ih =>
    intro q hpw hf e he hp
    rw [List.pairwise_cons] at hpw
    by_cases ha : p a
    · have hq : q = a := by
        rw [List.find?_cons, ha] at hf
        exact (Option.some_inj.mp hf).symm
      subst hq
      rcases List.mem_cons.mp he with he | he
      · exact Or.inl he
      · exact Or.inr (hpw.1 e he)
    · rw [List.find?_cons] at hf
      simp only [ha] at hf
      rcases List.mem_cons.mp he with he | he
      · rw [he] at hp
        exact absurd hp (by simpa using ha)
      · exact ih hpw.2 hf e he hp

/-- A relation holding between all pairs holds pairwise on every list. -/
theorem pairwise_of_total_rel {α : Type} {R : α → α → Prop} (h : ∀ a b, R a b) :
    ∀ l : List α, List.Pairwise R l := by
  intro l
  induction l with
  | nil => exact List.Pairwise.nil
  | cons a t ih => exact List.Pairwise.cons (fun b _ => h a b) ih

/-! ## ProgressTracker: C3 supporting lemmas -/

theorem recordSets_eq_streamFold (d : ℕ) :
    ∀ (sets : List ProgressSet) (m : List (ℕ × ℚ × ℕ)),
      sets.foldl (recordStep d) m =
        streamFold m ((sets.filter (fun s => !(s.type == SetKind.warmup))).map
          (fun s => (s.reps, s.weightKg, d))) := by
  intro sets
  induction sets with
  | nil => intro m; rfl
  | cons s t ih =>
    intro m
    show t.foldl (recordStep d) (recordStep d m s) = _
    by_cases hw : s.type == SetKind.warmup
    · have hstep : recordStep d m s = m := by simp [recordStep, hw]
      rw [List.filter_cons, if_neg (by simp [hw]), hstep, ih]
    · have hstep : recordStep d m s = recUpd m s.reps s.weightKg d := by
        simp [recordStep, hw]
      rw [List.filter_cons, if_pos (by simp [hw]), List.map_cons, hstep, ih]
      rfl

theorem recordsFold_eq_streamFold :
    ∀ (sessions : List ExerciseProgressData) (m : List (ℕ × ℚ × ℕ)),
      sessions.foldl (fun m wk => wk.sets.foldl (recordStep wk.date) m) m =
        streamFold m (sessionStream sessions) := by
  intro sessions
  induction sessions with
  | nil => intro m; rfl
  | cons wk rest ih =>
    intro m
    show rest.foldl _ (wk.sets.foldl (recordStep wk.date) m) = _
    rw [show sessionStream (wk :: rest) =
      ((wk.sets.filter (fun s => !(s.type == SetKind.warmup))).map
        (fun s => (s.reps, s.weightKg, wk.date))) ++ sessionStream rest from
      List.flatMap_cons .., streamFold_append, ← recordSets_eq_streamFold, ih]

theorem mem_sessionStream {x : ℕ × ℚ × ℕ} {sessions : List ExerciseProgressData} :
    x ∈ sessionStream sessions ↔ ∃ wk ∈ sessions, ∃ s ∈ wk.sets,
      s.type ≠ SetKind.warmup ∧ x = (s.reps, s.weightKg, wk.date) := by
  constructor
  · intro hx
    rcases List.mem_flatMap.mp hx with ⟨wk, hwk, hx⟩
    rcases List.mem_map.mp hx with ⟨s, hs, rfl⟩
    rcases List.mem_filter.mp hs with ⟨hsets, hnw⟩
    exact ⟨wk, hwk, s, hsets, by simpa using hnw, rfl⟩
  · rintro ⟨wk, hwk, s, hs, hnw, rfl⟩
    refine List.mem_flatMap.mpr ⟨wk, hwk, ?_⟩
    exact List.mem_map.mpr ⟨s, List.mem_filter.mpr ⟨hs, by simpa using hnw⟩, rfl⟩

theorem mem_analyzeProgress {exerciseId : String} {ws : List Workout}
    {wk : ExerciseProgressData} :
    wk ∈ analyzeProgressForExercise exerciseId ws ↔
      ∃ w ∈ ws, (w.exercises.any (fun ex => ex.exercise_template_id == exerciseId)) = true
        ∧ wk = sessionOf exerciseId w := by
  unfold analyzeProgressForExercise
  rw [List.Perm.mem_iff (List.perm_insertionSort _ _)]
  constructor
  · intro h
    rcases List.mem_map.mp h with ⟨w, hw, rfl⟩
    rcases List.mem_filter.mp hw with ⟨hmem, hany⟩
    exact ⟨w, hmem, hany, rfl⟩
  · rintro ⟨w, hmem, hany, rfl⟩
    exact List.mem_map.mpr ⟨w, List.mem_filter.mpr ⟨hmem, hany⟩, rfl⟩

theorem hasRecordSet_any {exerciseId : String} {w : Workout} {k : ℕ} {wt : ℚ}
    (h : hasRecordSet exerciseId w k wt) :
    (w.exercises.any (fun ex => ex.exercise_template_id == exerciseId)) = true := by
  obtain ⟨s, hs, _⟩ := h
  unfold sessionOf at hs
  simp only at hs
  cases hf : w.exercises.find? (fun ex => ex.exercise_template_id == exerciseId) with
  | none => rw [hf] at hs; cases hs
  | some ex =>
    have hpred := List.find?_some hf
    exact List.any_eq_true.mpr ⟨ex, List.mem_of_find?_eq_some hf, by simpa using hpred⟩

theorem sessionStream_entry_of_hasRecordSet {exerciseId : String} {ws : List Workout}
    {w : Workout} {k : ℕ} {wt : ℚ} (hw : w ∈ ws) (h : hasRecordSet exerciseId w k wt) :
    (k, wt, w.start_time) ∈ sessionStream (analyzeProgressForExercise exerciseId ws) := by
  refine mem_sessionStream.mpr ⟨sessionOf exerciseId w,
    mem_analyzeProgress.mpr ⟨w, hw, hasRecordSet_any h, rfl⟩, ?_⟩
  obtain ⟨s, hs, hnw, hk, hwt⟩ := h
  exact ⟨s, hs, hnw, by rw [hk, hwt]; rfl⟩

theorem hasRecordSet_of_sessionStream_entry {exerciseId : String} {ws : List Workout}
    {x : ℕ × ℚ × ℕ}
    (hx : x ∈ sessionStream (analyzeProgressForExercise exerciseId ws)) :
    ∃ w ∈ ws, hasRecordSet exerciseId w x.1 x.2.1 ∧ w.start_time = x.2.2 := by
  rcases mem_sessionStream.mp hx with ⟨wk, hwk, s, hs, hnw, rfl⟩
  rcases mem_analyzeProgress.mp hwk with ⟨w, hmem, _, rfl⟩
  exact ⟨w, hmem, ⟨s, hs, hnw, rfl, rfl⟩, rfl⟩

theorem sessionStream_pairwise {sessions : List ExerciseProgressData}
    (h : List.Pairwise sessionDateDesc sessions) :
    List.Pairwise (fun a b : ℕ × ℚ × ℕ => b.2.2 ≤ a.2.2) (sessionStream sessions) := by
  rw [sessionStream, List.flatMap_def, List.pairwise_flatten]
  constructor
  · intro l hl
    rcases List.mem_map.mp hl with ⟨wk, _, rfl⟩
    rw [List.pairwise_map]
    exact pairwise_of_total_rel (fun a b => le_refl _) _
  · rw [List.pairwise_map]
    refine List.Pairwise.imp ?_ h
    intro a b hab x hx y hy
    rcases List.mem_map.mp hx with ⟨s, _, rfl⟩
    rcases List.mem_map.mp hy with ⟨t, _, rfl⟩
    exact hab

theorem mem_calculateRecordsByReps {pd : List ExerciseProgressData} {r : RepRecord} :
    r ∈ calculateRecordsByReps pd ↔
      (r.reps, r.weight_kg, r.date) ∈ streamFold [] (sessionStream pd) := by
  unfold calculateRecordsByReps
  rw [List.Perm.mem_iff (List.perm_insertionSort _ _), recordsFold_eq_streamFold]
  constructor
  · intro h
    rcases List.mem_map.mp h with ⟨e, he, rfl⟩
    simpa using he
  · intro h
    exact List.mem_map.mpr ⟨(r.reps, r.weight_kg, r.date), h, rfl⟩

/-! ## ProgressTracker: C3 -/

/-- C3, as stated, is false: two workouts both achieving 100 kg × 5 — the
earlier on date 1000, the later on date 2000 — yield a record dated 2000,
the *later* workout's start date, because `analyzeProgressForExercise`
sorts sessions most-recent-first before `calculateRecordsByReps` folds
them, so the first-processed (latest) equal weight fixes the date. -/
theorem C3_first_achieved_counterexample :
    calculateRecordsByReps (analyzeProgressForExercise "squat1"
        [tieWorkoutEarly, tieWorkoutLate])
      = [{ reps := 5, weight_kg := 100, date := 2000 }]
    ∧ tieWorkoutEarly.start_time = 1000 ∧ tieWorkoutLate.start_time = 2000
    ∧ (2000 : ℕ) ≠ 1000 := by
  refine ⟨by decide, rfl, rfl, by decide⟩

/-- C3 amended: the rep-record table still maps each rep count occurring in
a non-warm-up set (of the session's sets, i.e. the first matching exercise
entry per workout) to the heaviest weight recorded at exactly that rep
count, with the start date of a workout achieving it — but among workouts
achieving that weight the stored date is the chronologically *latest*
(sessions are processed most-recent-first and later-processed, i.e.
earlier, equal weights never overwrite). -/
theorem C3_records_by_reps_amended (exerciseId : String) (workouts : List Workout) :
    (∀ r ∈ calculateRecordsByReps (analyzeProgressForExercise exerciseId workouts),
      (∃ w ∈ workouts, hasRecordSet exerciseId w r.reps r.weight_kg
        ∧ w.start_time = r.date)
      ∧ (∀ w ∈ workouts, ∀ wt, hasRecordSet exerciseId w r.reps wt → wt ≤ r.weight_kg)
      ∧ (∀ w ∈ workouts, hasRecordSet exerciseId w r.reps r.weight_kg →
          w.start_time ≤ r.date))
    ∧ (∀ w ∈ workouts, ∀ k wt, hasRecordSet exerciseId w k wt →
        ∃ r ∈ calculateRecordsByReps (analyzeProgressForExercise exerciseId workouts),
          r.reps = k) := by
  have hsorted : List.Pairwise sessionDateDesc
      (analyzeProgressForExercise exerciseId workouts) := by
    unfold analyzeProgressForExercise
    exact List.sorted_insertionSort sessionDateDesc _
  have hpw := sessionStream_pairwise hsorted
  constructor
  · intro r hr
    have hmem := mem_calculateRecordsByReps.mp hr
    have hnodup : KeysNodup (streamFold []
        (sessionStream (analyzeProgressForExercise exerciseId workouts))) :=
      KeysNodup_streamFold _ (by simp [KeysNodup])
    have hget := mapGet_of_mem hnodup hmem
    rw [streamFold_mapGet] at hget
    rw [show mapGet ([] : List (ℕ × ℚ × ℕ)) r.reps = none from rfl] at hget
    obtain ⟨hmax, hfind⟩ := keyFold_none_char _ _ hget
    refine ⟨?_, ?_, ?_⟩
    · -- an achieving workout with the stored date exists
      have hq := List.mem_of_find?_eq_some hfind
      rcases List.mem_map.mp hq with ⟨x, hxf, hx2⟩
      rcases List.mem_filter.mp hxf with ⟨hxs, hxk⟩
      have hx1 : x.1 = r.reps := by simpa using hxk
      obtain ⟨w, hw, hhas, hdate⟩ := hasRecordSet_of_sessionStream_entry hxs
      rw [hx1, hx2] at hhas
      rw [hx2] at hdate
      exact ⟨w, hw, hhas, hdate⟩
    · -- the stored weight is maximal
      intro w hw wt hhas
      have hx := sessionStream_entry_of_hasRecordSet hw hhas
      have hmem2 : (wt, w.start_time) ∈
          ((sessionStream (analyzeProgressForExercise exerciseId workouts)).filter
            (fun e => e.1 == r.reps)).map (fun e => e.2) :=
        List.mem_map.mpr ⟨(r.reps, wt, w.start_time),
          List.mem_filter.mpr ⟨hx, by simp⟩, rfl⟩
      exact hmax _ hmem2
    · -- among achieving workouts, the latest date is stored
      intro w hw hhas
      have hx := sessionStream_entry_of_hasRecordSet hw hhas
      have hmem2 : (r.weight_kg, w.start_time) ∈
          ((sessionStream (analyzeProgressForExercise exerciseId workouts)).filter
            (fun e => e.1 == r.reps)).map (fun e => e.2) :=
        List.mem_map.mpr ⟨(r.reps, r.weight_kg, w.start_time),
          List.mem_filter.mpr ⟨hx, by simp⟩, rfl⟩
      have hpw' : List.Pairwise (fun a b : ℚ × ℕ => b.2 ≤ a.2)
          (((sessionStream (analyzeProgressForExercise exerciseId workouts)).filter
            (fun e => e.1 == r.reps)).map (fun e => e.2)) := by
        rw [List.pairwise_map]
        exact List.Pairwise.filter _ hpw
      have := find?_pairwise hpw' hfind (r.weight_kg, w.start_time) hmem2 (by simp)
      rcases this with heq | hle
      · rw [show w.start_time = ((r.weight_kg, w.start_time) : ℚ × ℕ).2 from rfl, heq]
      · exact hle
  · -- every rep count with a qualifying set appears in the table
    intro w hw k wt hhas
    have hx := sessionStream_entry_of_hasRecordSet hw hhas
    have hne : ((sessionStream (analyzeProgressForExercise exerciseId workouts)).filter
        (fun e => e.1 == k)).map (fun e => e.2) ≠ [] := by
      intro hnil
      have : (k, wt, w.start_time) ∈
          (sessionStream (analyzeProgressForExercise exerciseId workouts)).filter
            (fun e => e.1 == k) :=
        List.mem_filter.mpr ⟨hx, by simp⟩
      rw [List.map_eq_nil_iff.mp hnil] at this
      cases this
    obtain ⟨q, hq⟩ : ∃ q, keyFold none
        (((sessionStream (analyzeProgressForExercise exerciseId workouts)).filter
          (fun e => e.1 == k)).map (fun e => e.2)) = some q := by
      cases hc : keyFold none (((sessionStream
          (analyzeProgressForExercise exerciseId workouts)).filter
            (fun e => e.1 == k)).map (fun e => e.2)) with
      | none => exact absurd ((keyFold_none_eq_none_iff _).mp hc) hne
      | some q => exact ⟨q, rfl⟩
    have hget : mapGet (streamFold []
        (sessionStream (analyzeProgressForExercise exerciseId workouts))) k = some q := by
      rw [streamFold_mapGet]
      exact hq
    refine ⟨⟨k, q.1, q.2⟩, mem_calculateRecordsByReps.mpr ?_, rfl⟩
    exact mapGet_some_mem hget

/-- C3 amended, witnessed on the tie scenario: the record for 5 reps at
100 kg is achieved by a workout whose start date is the stored date 2000
(the later workout). -/
theorem C3_records_by_reps_amended_witness :
    ∃ w ∈ [tieWorkoutEarly, tieWorkoutLate],
      hasRecordSet "squat1" w 5 100 ∧ w.start_time = 2000 :=
  ((C3_records_by_reps_amended "squat1" [tieWorkoutEarly, tieWorkoutLate]).1
    ⟨5, 100, 2000⟩ (by decide)).1

/-! ## ExerciseSummaryBuilder: C5 supporting lemmas -/

/-- Membership in the per-workout `exercisesInWorkout` set: an id is
collected exactly when it was already collected or occurs in the entries
and passes the filtered-ids check. -/
theorem innerFold_fst_mem (d : ℕ) (ids : List String) (t : String) :
    ∀ (exs : List WorkoutExercise)
      (acc : List String × List (String × List (ℕ × ℚ × ℕ))),
      (t ∈ (exs.foldl (processExerciseEntry d ids) acc).1 ↔
        t ∈ acc.1 ∨ (t ∈ ids ∧
          (exs.any (fun ex => ex.exercise_template_id == t)) = true)) := by
  intro exs
  induction exs with
  | nil => intro acc; simp
  | cons ex rest ih =>
    intro acc
    show t ∈ (rest.foldl _ (processExerciseEntry d ids acc ex)).1 ↔ _
    rw [ih]
    have hstep : t ∈ (processExerciseEntry d ids acc ex).1 ↔
        t ∈ acc.1 ∨ (t = ex.exercise_template_id ∧ ex.exercise_template_id ∈ ids) := by
      unfold processExerciseEntry
      by_cases hc : ids.contains ex.exercise_template_id
      · have hcm : ex.exercise_template_id ∈ ids := List.elem_iff.mp hc
        rw [if_neg (by simp [hcm])]
        show t ∈ (if acc.1.contains ex.exercise_template_id then acc.1
          else acc.1 ++ [ex.exercise_template_id]) ↔ _
        by_cases hin : acc.1.contains ex.exercise_template_id
        · rw [if_pos hin]
          have hinm : ex.exercise_template_id ∈ acc.1 := List.elem_iff.mp hin
          constructor
          · exact Or.inl
          · rintro (h | ⟨rfl, _⟩)
            · exact h
            · exact hinm
        · rw [if_neg hin]
          constructor
          · intro h
            rcases List.mem_append.mp h with h | h
            · exact Or.inl h
            · simp only [List.mem_singleton] at h
              exact Or.inr ⟨h, hcm⟩
          · rintro (h | ⟨rfl, _⟩)
            · exact List.mem_append.mpr (Or.inl h)
            · exact List.mem_append.mpr (Or.inr (List.mem_singleton.mpr rfl))
      · rw [if_pos (by simpa using hc)]
        constructor
        · exact Or.inl
        · rintro (h | ⟨rfl, hmem⟩)
          · exact h
          · exact absurd (List.elem_iff.mpr hmem) (by simpa using hc)
    rw [hstep]
    constructor
    · rintro ((h | ⟨rfl, hmem⟩) | ⟨hids, hany'⟩)
      · exact Or.inl h
      · refine Or.inr ⟨hmem, ?_⟩
        rw [List.any_cons]
        simp
      · refine Or.inr ⟨hids, ?_⟩
        rw [List.any_cons, hany']
        simp
    · rintro (h | ⟨hids, hany'⟩)
      · exact Or.inl (Or.inl h)
      · rw [List.any_cons] at hany'
        rcases Bool.or_eq_true_iff.mp hany' with h | h
        · have heq : ex.exercise_template_id = t := eq_of_beq h
          refine Or.inl (Or.inr ⟨heq.symm, ?_⟩)
          rw [heq]
          exact hids
        · exact Or.inr ⟨hids, h⟩

/-- The `exercisesInWorkout` set never collects duplicates. -/
theorem innerFold_fst_nodup (d : ℕ) (ids : List String)
    (exs : List WorkoutExercise)
    (acc : List String × List (String × List (ℕ × ℚ × ℕ)))
    (h : acc.1.Nodup) : ((exs.foldl (processExerciseEntry d ids) acc).1).Nodup := by
  refine foldl_preserve (fun acc => acc.1.Nodup) _ ?_ exs acc h
  intro acc ex hacc
  unfold processExerciseEntry
  by_cases hc : ids.contains ex.exercise_template_id
  · rw [if_neg (by simp [List.elem_iff.mp hc])]
    show (if acc.1.contains ex.exercise_template_id then acc.1
      else acc.1 ++ [ex.exercise_template_id]).Nodup
    by_cases hin : acc.1.contains ex.exercise_template_id
    · rw [if_pos hin]
      exact hacc
    · rw [if_neg hin]
      refine List.Nodup.append hacc (List.nodup_singleton _) ?_
      intro a ha hb
      simp only [List.mem_singleton] at hb
      exact absurd (List.elem_iff.mpr (hb ▸ ha)) (by simpa using hin)
  · rw [if_pos (by simpa using hc)]
    exact hacc

/-- Keys outside the increment list are untouched by the frequency loop. -/
theorem incFold_not_mem (t : String) :
    ∀ (L : List String) (f : List (String × ℕ)), t ∉ L →
      mapGet (L.foldl (fun freq exerciseId =>
        mapSet freq exerciseId ((mapGet freq exerciseId).getD 0 + 1)) f) t =
      mapGet f t := by
  intro L
  induction L with
  | nil => intro f _; rfl
  | cons a rest ih =>
    intro f ht
    have hta : t ≠ a := fun h => ht (h ▸ List.mem_cons_self a rest)
    show mapGet (rest.foldl _ (mapSet f a ((mapGet f a).getD 0 + 1))) t = _
    rw [ih _ (fun h => ht (List.mem_cons_of_mem a h)), mapGet_mapSet_ne _ _ _ _ hta]

/-- The frequency loop adds exactly one for each distinct id in the
workout's set. -/
theorem incFold_getD (t : String) :
    ∀ (L : List String) (f : List (String × ℕ)), L.Nodup →
      (mapGet (L.foldl (fun freq exerciseId =>
        mapSet freq exerciseId ((mapGet freq exerciseId).getD 0 + 1)) f) t).getD 0 =
      (mapGet f t).getD 0 + (if t ∈ L then 1 else 0) := by
  intro L
  induction L with
  | nil => intro f _; simp
  | cons a rest ih =>
    intro f hnd
    rw [List.nodup_cons] at hnd
    show (mapGet (rest.foldl _ (mapSet f a ((mapGet f a).getD 0 + 1))) t).getD 0 = _
    by_cases hta : t = a
    · subst hta
      rw [incFold_not_mem t rest _ hnd.1, mapGet_mapSet_self]
      simp
    · rw [ih _ hnd.2, mapGet_mapSet_ne _ _ _ _ hta]
      simp only [List.mem_cons, hta, false_or]

/-- Frequency accumulated over the workout loop counts, per workout, one
for each workout containing the (filter-passing) template id. -/
theorem processWorkout_freq (ids : List String) (t : String) (hin : t ∈ ids) :
    ∀ (ws : List Workout)
      (st : List (String × ℕ) × List (String × List (ℕ × ℚ × ℕ))),
      (mapGet (ws.foldl (processWorkout ids) st).1 t).getD 0 =
        (mapGet st.1 t).getD 0 +
          ws.countP (fun w =>
            w.exercises.any (fun ex => ex.exercise_template_id == t)) := by
  intro ws
  induction ws with
  | nil => intro st; simp
  | cons w rest ih =>
    intro st
    show (mapGet (rest.foldl _ (processWorkout ids st w)).1 t).getD 0 = _
    rw [ih (processWorkout ids st w), List.countP_cons]
    have hnodup := innerFold_fst_nodup w.start_time ids w.exercises ([], st.2)
      List.nodup_nil
    have hfreq : (mapGet (processWorkout ids st w).1 t).getD 0 =
        (mapGet st.1 t).getD 0 +
          (if (w.exercises.any (fun ex => ex.exercise_template_id == t)) = true
            then 1 else 0) := by
      show (mapGet ((w.exercises.foldl (processExerciseEntry w.start_time ids)
        ([], st.2)).1.foldl _ st.1) t).getD 0 = _
      rw [incFold_getD t _ st.1 hnodup]
      congr 1
      have hiff : t ∈ (w.exercises.foldl (processExerciseEntry w.start_time ids)
          ([], st.2)).1 ↔
          (w.exercises.any (fun ex => ex.exercise_template_id == t)) = true := by
        rw [innerFold_fst_mem w.start_time ids t w.exercises ([], st.2)]
        constructor
        · rintro (h | ⟨_, h⟩)
          · cases h
          · exact h
        · intro h
          exact Or.inr ⟨hin, h⟩
      exact if_congr hiff rfl rfl
    rw [hfreq]
    omega


/-- With no date bounds, `getWorkouts` merely re-sorts the fetched list. -/
theorem getWorkouts_none_perm (ws : List Workout) :
    (getWorkouts ws none none).Perm ws := by
  unfold getWorkouts
  have : ws.filter (fun _ => true && true) = ws := by
    simp
  simpa [this] using List.perm_insertionSort workoutDateDesc _

/-! ## ExerciseSummaryBuilder: C5 -/

/-- C5: every summary's frequency equals the number of workouts (counted
once each) whose exercises include the summary's template id — for every
fetched collection, search term and `excludeUnused` flag (no date
bounds). -/
theorem C5_frequency_distinct_workouts (ts : List ExerciseTemplate) (ws : List Workout)
    (searchTerm : Option String) (excludeUnused : Bool) :
    ∀ e ∈ getExercises ts ws searchTerm excludeUnused none none,
      e.frequency = ws.countP (fun w =>
        w.exercises.any (fun ex => ex.exercise_template_id == e.id)) := by
  intro e he
  unfold getExercises at he
  simp only [] at he
  split_ifs at he with h1 h2 h3
  · cases he
  · cases he
  all_goals
    rw [List.Perm.mem_iff (List.perm_insertionSort _ _)] at he
  · replace he := List.mem_of_mem_filter he
    rcases List.mem_map.mp he with ⟨tpl, htpl, rfl⟩
    have hin : tpl.id ∈ (filterTemplates searchTerm ts).map
        (fun t : ExerciseTemplate => t.id) := List.mem_map.mpr ⟨tpl, htpl, rfl⟩
    simp only
    rw [processWorkout_freq _ tpl.id hin (getWorkouts ws none none) ([], [])]
    rw [show mapGet ([] : List (String × ℕ)) tpl.id = none from rfl]
    simp only [Option.getD_none, Nat.zero_add]
    exact List.Perm.countP_eq _ (getWorkouts_none_perm ws)
  · rcases List.mem_map.mp he with ⟨tpl, htpl, rfl⟩
    have hin : tpl.id ∈ (filterTemplates searchTerm ts).map
        (fun t : ExerciseTemplate => t.id) := List.mem_map.mpr ⟨tpl, htpl, rfl⟩
    simp only
    rw [processWorkout_freq _ tpl.id hin (getWorkouts ws none none) ([], [])]
    rw [show mapGet ([] : List (String × ℕ)) tpl.id = none from rfl]
    simp only [Option.getD_none, Nat.zero_add]
    exact List.Perm.countP_eq _ (getWorkouts_none_perm ws)

/-- C5 witnessed on the spec's own scenario: the squat appears twice in one
workout and once in another; the summary's frequency is 2 (the number of
workouts containing it), not 3. -/
theorem C5_frequency_distinct_workouts_witness :
    (2 : ℕ) = [doubleEntryWorkout, tieWorkoutEarly].countP (fun w =>
        w.exercises.any (fun ex => ex.exercise_template_id == "squat1")) := by
  have heval : getExercises [squatTemplate] [doubleEntryWorkout, tieWorkoutEarly]
      none false none none =
      [{ id := "squat1", name := "Squat (Barbell)", frequency := 2,
         estimated1RM := some (225/2, 5000), actual1RM := some (100, 5000),
         type := "weight_reps", primary_muscle_group := "Legs",
         secondary_muscle_groups := [], equipment := "barbell" }] := by
    norm_num [getExercises, getWorkouts, filterTemplates, processWorkout,
      processExerciseEntry, processSet, mapSet, mapGet, mapHas, recUpd,
      estimated1RMMap, actual1RMMap, computeEstimated1RM, computeActual1RM,
      calculateEstimated1RMBrzycki, brzyckiFormula, isIntegerQ, jsRound, freqDesc,
      workoutDateDesc, List.insertionSort, List.orderedInsert, doubleEntryWorkout,
      tieWorkoutEarly, squatTemplate, mkSimpleWorkout, mkSetEntry, List.filter,
      List.foldl, List.find?]
  exact C5_frequency_distinct_workouts [squatTemplate]
    [doubleEntryWorkout, tieWorkoutEarly] none false _
    (by rw [heval]; exact List.mem_singleton.mpr rfl)

/-! ## ExerciseSummaryBuilder: C6 supporting lemmas -/

/-- The skip condition of `getExercises`'s set loop is the negation of
`qualifiesGE`. -/
theorem skip_eq_not_qualifiesGE (s : ExerciseSet) :
    (s.type == SetKind.warmup || s.weight_kg == 0 || s.reps == 0) =
      !(qualifiesGE s) := by
  unfold qualifiesGE
  cases s.type == SetKind.warmup <;> cases s.weight_kg == 0 <;> cases s.reps == 0 <;> rfl

theorem processSet_mapGet_ne (d : ℕ) (exerciseId t : String)
    (records : List (String × List (ℕ × ℚ × ℕ))) (s : ExerciseSet)
    (h : t ≠ exerciseId) :
    mapGet (processSet d exerciseId records s) t = mapGet records t := by
  unfold processSet
  split_ifs with hs
  · rfl
  · exact mapGet_mapSet_ne _ _ _ _ h

theorem setsFold_mapGet_ne (d : ℕ) (exerciseId t : String) (h : t ≠ exerciseId) :
    ∀ (sets : List ExerciseSet) (records : List (String × List (ℕ × ℚ × ℕ))),
      mapGet (sets.foldl (processSet d exerciseId) records) t = mapGet records t := by
  intro sets
  induction sets with
  | nil => intro records; rfl
  | cons s rest ih =>
    intro records
    show mapGet (rest.foldl _ (processSet d exerciseId records s)) t = _
    rw [ih, processSet_mapGet_ne _ _ _ _ _ h]

theorem setsFold_mapGet_self (d : ℕ) (exerciseId : String) :
    ∀ (sets : List ExerciseSet) (records : List (String × List (ℕ × ℚ × ℕ)))
      (recs : List (ℕ × ℚ × ℕ)), mapGet records exerciseId = some recs →
      mapGet (sets.foldl (processSet d exerciseId) records) exerciseId =
        some (streamFold recs ((sets.filter qualifiesGE).map
          (fun s => (s.reps, s.weight_kg, d)))) := by
  intro sets
  induction sets with
  | nil => intro records recs h; simpa [streamFold] using h
  | cons s rest ih =>
    intro records recs h
    show mapGet (rest.foldl _ (processSet d exerciseId records s)) exerciseId = _
    by_cases hq : qualifiesGE s
    · have hstep : mapGet (processSet d exerciseId records s) exerciseId =
          some (recUpd recs s.reps s.weight_kg d) := by
        unfold processSet
        rw [if_neg (by simp [skip_eq_not_qualifiesGE, hq]), h]
        exact mapGet_mapSet_self _ _ _
      rw [ih _ _ hstep, List.filter_cons, if_pos hq, List.map_cons]
      rfl
    · have hstep : mapGet (processSet d exerciseId records s) exerciseId = some recs := by
        unfold processSet
        rw [if_pos (by simp [skip_eq_not_qualifiesGE, hq])]
        exact h
      rw [ih _ _ hstep, List.filter_cons, if_neg (by simpa using hq)]

theorem exStream_cons_pos (t : String) (d : ℕ) (ex : WorkoutExercise)
    (rest : List WorkoutExercise) (hex : (ex.exercise_template_id == t) = true) :
    exStream t d (ex :: rest) =
      ((ex.sets.filter qualifiesGE).map (fun s => (s.reps, s.weight_kg, d)))
        ++ exStream t d rest := by
  unfold exStream
  rw [List.filter_cons, if_pos hex, List.flatMap_cons]

theorem exStream_cons_neg (t : String) (d : ℕ) (ex : WorkoutExercise)
    (rest : List WorkoutExercise) (hex : ¬ (ex.exercise_template_id == t) = true) :
    exStream t d (ex :: rest) = exStream t d rest := by
  unfold exStream
  rw [List.filter_cons, if_neg hex]

theorem exStream_eq_nil {t : String} {d : ℕ} {exs : List WorkoutExercise}
    (h : ¬ (exs.any (fun ex => ex.exercise_template_id == t)) = true) :
    exStream t d exs = [] := by
  unfold exStream
  rw [List.filter_eq_nil_iff.mpr, List.flatMap_nil]
  intro ex hmem hpred
  exact h (List.any_eq_true.mpr ⟨ex, hmem, hpred⟩)

theorem exsFold_records_mapGet (d : ℕ) (ids : List String) (t : String)
    (ht : t ∈ ids) :
    ∀ (exs : List WorkoutExercise)
      (acc : List String × List (String × List (ℕ × ℚ × ℕ))),
      mapGet (exs.foldl (processExerciseEntry d ids) acc).2 t =
        if (exs.any (fun ex => ex.exercise_template_id == t)) = true
        then some (streamFold ((mapGet acc.2 t).getD []) (exStream t d exs))
        else mapGet acc.2 t := by
  intro exs
  induction exs with
  | nil => intro acc; simp
  | cons ex rest ih =>
    intro acc
    show mapGet (rest.foldl _ (processExerciseEntry d ids acc ex)).2 t = _
    rw [ih]
    by_cases hex : (ex.exercise_template_id == t) = true
    · have hexe : ex.exercise_template_id = t := eq_of_beq hex
      have hc : ids.contains ex.exercise_template_id = true :=
        List.elem_iff.mpr (hexe ▸ ht)
      have hrec0 : mapGet (if mapHas acc.2 ex.exercise_template_id then acc.2
          else mapSet acc.2 ex.exercise_template_id []) t =
          some ((mapGet acc.2 t).getD []) := by
        by_cases hh : mapHas acc.2 ex.exercise_template_id
        · rw [if_pos hh]
          cases hv : mapGet acc.2 t with
          | none =>
            rw [hexe] at hh
            rw [(mapGet_none_iff _ _).mp hv] at hh
            cases hh
          | some v => simp [hv]
        · rw [if_neg hh, hexe, mapGet_mapSet_self]
          rw [(mapGet_none_iff acc.2 t).mpr (by rw [← hexe]; simpa using hh)]
          rfl
      have hstep : mapGet (processExerciseEntry d ids acc ex).2 t =
          some (streamFold ((mapGet acc.2 t).getD [])
            ((ex.sets.filter qualifiesGE).map (fun s => (s.reps, s.weight_kg, d)))) := by
        unfold processExerciseEntry
        rw [if_neg (by simp [List.elem_iff.mp hc])]
        show mapGet (ex.sets.foldl (processSet d ex.exercise_template_id) _) t = _
        rw [← hexe] at hrec0 ⊢
        exact setsFold_mapGet_self d ex.exercise_template_id ex.sets _ _ hrec0
      rw [hstep]
      have hany : ((ex :: rest).any (fun ex => ex.exercise_template_id == t)) = true := by
        rw [List.any_cons, hex]
        rfl
      rw [if_pos hany, exStream_cons_pos t d ex rest hex]
      by_cases hrest : (rest.any (fun ex => ex.exercise_template_id == t)) = true
      · rw [if_pos hrest]
        simp only [Option.getD_some]
        rw [streamFold_append]
      · rw [if_neg hrest, exStream_eq_nil hrest, List.append_nil]
    · have hstep : mapGet (processExerciseEntry d ids acc ex).2 t = mapGet acc.2 t := by
        unfold processExerciseEntry
        by_cases hc : ids.contains ex.exercise_template_id
        · rw [if_neg (by simp [List.elem_iff.mp hc])]
          show mapGet (ex.sets.foldl (processSet d ex.exercise_template_id) _) t = _
          have hne : t ≠ ex.exercise_template_id := by
            intro h
            exact hex (beq_iff_eq.mpr h.symm)
          rw [setsFold_mapGet_ne d _ t hne]
          by_cases hh : mapHas acc.2 ex.exercise_template_id
          · rw [if_pos hh]
          · rw [if_neg hh, mapGet_mapSet_ne _ _ _ _ hne]
        · rw [if_pos (by simpa using hc)]
      rw [hstep]
      have hpex : (ex.exercise_template_id == t) = false := by
        revert hex
        cases ex.exercise_template_id == t <;> simp
      rw [exStream_cons_neg t d ex rest hex, List.any_cons, hpex, Bool.false_or]

theorem wsStream_eq_nil {t : String} {ws : List Workout}
    (h : ¬ (ws.any (fun w =>
      w.exercises.any (fun ex => ex.exercise_template_id == t))) = true) :
    wsStream t ws = [] := by
  unfold wsStream
  rw [List.flatMap_eq_nil_iff.mpr]
  intro w hw
  exact exStream_eq_nil (fun hc => h (List.any_eq_true.mpr ⟨w, hw, hc⟩))

theorem wsFold_records_mapGet (ids : List String) (t : String) (ht : t ∈ ids) :
    ∀ (ws : List Workout)
      (st : List (String × ℕ) × List (String × List (ℕ × ℚ × ℕ))),
      mapGet (ws.foldl (processWorkout ids) st).2 t =
        if (ws.any (fun w =>
          w.exercises.any (fun ex => ex.exercise_template_id == t))) = true
        then some (streamFold ((mapGet st.2 t).getD []) (wsStream t ws))
        else mapGet st.2 t := by
  intro ws
  induction ws with
  | nil => intro st; simp
  | cons w rest ih =>
    intro st
    show mapGet (rest.foldl _ (processWorkout ids st w)).2 t = _
    rw [ih]
    have hstep := exsFold_records_mapGet w.start_time ids t ht w.exercises ([], st.2)
    have hws : wsStream t (w :: rest) =
        exStream t w.start_time w.exercises ++ wsStream t rest := by
      unfold wsStream
      rw [List.flatMap_cons]
    by_cases hw : (w.exercises.any (fun ex => ex.exercise_template_id == t)) = true
    · rw [if_pos hw] at hstep
      have hany : ((w :: rest).any (fun w =>
          w.exercises.any (fun ex => ex.exercise_template_id == t))) = true := by
        rw [List.any_cons, hw]
        rfl
      rw [if_pos hany, hws]
      show (if _ = true then some (streamFold ((mapGet
        (w.exercises.foldl (processExerciseEntry w.start_time ids) ([], st.2)).2 t).getD [])
          (wsStream t rest)) else _) = _
      rw [hstep]
      by_cases hrest : (rest.any (fun w =>
          w.exercises.any (fun ex => ex.exercise_template_id == t))) = true
      · rw [if_pos hrest]
        simp only [Option.getD_some]
        rw [streamFold_append]
      · rw [if_neg hrest, wsStream_eq_nil hrest, List.append_nil]
        exact hstep
    · rw [if_neg hw] at hstep
      have hpex : (w.exercises.any (fun ex => ex.exercise_template_id == t)) = false := by
        revert hw
        cases w.exercises.any (fun ex => ex.exercise_template_id == t) <;> simp
      rw [hws, exStream_eq_nil hw, List.nil_append, List.any_cons, hpex, Bool.false_or]
      have hpw : mapGet (processWorkout ids st w).2 t = mapGet st.2 t := hstep
      rw [hpw]

theorem records_keysNodup (ids : List String) (ws : List Workout)
    (st : List (String × ℕ) × List (String × List (ℕ × ℚ × ℕ)))
    (h : KeysNodup st.2) : KeysNodup ((ws.foldl (processWorkout ids) st).2) := by
  refine foldl_preserve (fun st => KeysNodup st.2) _ ?_ ws st h
  intro st w hst
  show KeysNodup (w.exercises.foldl (processExerciseEntry w.start_time ids) ([], st.2)).2
  refine foldl_preserve
    (fun acc : List String × List (String × List (ℕ × ℚ × ℕ)) => KeysNodup acc.2)
    _ ?_ w.exercises ([], st.2) hst
  intro acc ex hacc
  unfold processExerciseEntry
  by_cases hc : ids.contains ex.exercise_template_id
  · rw [if_neg (by simp [List.elem_iff.mp hc])]
    show KeysNodup (ex.sets.foldl (processSet w.start_time ex.exercise_template_id)
      (if mapHas acc.2 ex.exercise_template_id then acc.2
        else mapSet acc.2 ex.exercise_template_id []))
    refine foldl_preserve KeysNodup _ ?_ ex.sets _ ?_
    · intro records s hrec
      unfold processSet
      split_ifs with hs
      · exact hrec
      · exact KeysNodup_mapSet _ _ hrec
    · by_cases hh : mapHas acc.2 ex.exercise_template_id
      · rw [if_pos hh]
        exact hacc
      · rw [if_neg hh]
        exact KeysNodup_mapSet _ _ hacc
  · rw [if_pos (by simpa using hc)]
    exact hacc

theorem rmMapFold_mapGet (g : List (ℕ × ℚ × ℕ) → Option (ℚ × ℕ)) :
    ∀ (r : List (String × List (ℕ × ℚ × ℕ))) (acc : List (String × (ℚ × ℕ)))
      (t : String), KeysNodup r →
      mapGet (r.foldl (fun m e =>
        match g e.2 with
        | some v => mapSet m e.1 v
        | none => m) acc) t =
        (match mapGet r t with
         | some recs =>
           (match g recs with
            | some v => some v
            | none => mapGet acc t)
         | none => mapGet acc t) := by
  intro r
  induction r with
  | nil => intro acc t _; simp [mapGet]
  | cons e r' ih =>
    intro acc t hn
    unfold KeysNodup at hn
    rw [List.map_cons, List.nodup_cons] at hn
    show mapGet (r'.foldl _ (match g e.2 with
      | some v => mapSet acc e.1 v
      | none => acc)) t = _
    rw [ih _ t hn.2]
    by_cases het : (e.1 == t) = true
    · have hete : e.1 = t := eq_of_beq het
      have hr' : mapGet r' t = none := by
        rw [mapGet_none_iff]
        cases hh : mapHas r' t with
        | false => rfl
        | true =>
          have hany : r'.any (fun e => e.1 == t) = true := hh
          rcases List.any_eq_true.mp hany with ⟨e', he', hpred⟩
          exact absurd (List.mem_map.mpr ⟨e', he', eq_of_beq hpred⟩) (hete ▸ hn.1)
      rw [hr', mapGet_cons_pos het]
      cases hg : g e.2 with
      | some v =>
        simp only [hg]
        rw [← hete, mapGet_mapSet_self]
      | none =>
        simp only [hg]
    · have hne : t ≠ e.1 := fun h => het (beq_iff_eq.mpr h.symm)
      have hetf : (e.1 == t) = false := by
        revert het
        cases e.1 == t <;> simp
      rw [mapGet_cons_neg hetf]
      cases hg : g e.2 with
      | some v =>
        show (match mapGet r' t with
          | some recs =>
            (match g recs with
             | some v' => some v'
             | none => mapGet (mapSet acc e.1 v) t)
          | none => mapGet (mapSet acc e.1 v) t) = _
        rw [mapGet_mapSet_ne _ _ _ _ hne]
      | none => rfl

theorem actual1RMMap_mapGet (r : List (String × List (ℕ × ℚ × ℕ)))
    (hn : KeysNodup r) (t : String) :
    mapGet (actual1RMMap r) t =
      (match mapGet r t with
       | some recs => computeActual1RM recs
       | none => none) := by
  unfold actual1RMMap
  rw [rmMapFold_mapGet computeActual1RM r [] t hn]
  cases mapGet r t with
  | none => rfl
  | some recs =>
    cases hc : computeActual1RM recs with
    | some v => simp only [hc]
    | none =>
      simp only [hc]
      rfl

theorem maxFold_char :
    ∀ (recs : List (ℕ × ℚ × ℕ)) (acc r : ℚ × ℕ),
      recs.foldl (fun acc e => if e.2.1 > acc.1 then (e.2.1, e.2.2) else acc) acc = r →
      (r = acc ∨ ∃ e ∈ recs, r = e.2) ∧ acc.1 ≤ r.1 ∧ ∀ e ∈ recs, e.2.1 ≤ r.1 := by
  intro recs
  induction recs with
  | nil =>
    intro acc r h
    exact ⟨Or.inl h.symm, h ▸ le_refl _, by simp⟩
  | cons e rest ih =>
    intro acc r h
    by_cases he : e.2.1 > acc.1
    · have h' : rest.foldl (fun acc e => if e.2.1 > acc.1 then (e.2.1, e.2.2) else acc)
          (e.2.1, e.2.2) = r := by simpa [he] using h
      obtain ⟨hcase, hle, hall⟩ := ih (e.2.1, e.2.2) r h'
      refine ⟨?_, le_of_lt (lt_of_lt_of_le he hle), ?_⟩
      · rcases hcase with hc | ⟨e', he', hc⟩
        · exact Or.inr ⟨e, List.mem_cons_self _ _, hc⟩
        · exact Or.inr ⟨e', List.mem_cons_of_mem _ he', hc⟩
      · intro x hx
        rcases List.mem_cons.mp hx with hx | hx
        · exact hx ▸ hle
        · exact hall x hx
    · have h' : rest.foldl (fun acc e => if e.2.1 > acc.1 then (e.2.1, e.2.2) else acc)
          acc = r := by simpa [he] using h
      obtain ⟨hcase, hle, hall⟩ := ih acc r h'
      refine ⟨?_, hle, ?_⟩
      · rcases hcase with hc | ⟨e', he', hc⟩
        · exact Or.inl hc
        · exact Or.inr ⟨e', List.mem_cons_of_mem _ he', hc⟩
      · intro x hx
        rcases List.mem_cons.mp hx with hx | hx
        · exact hx ▸ le_trans (le_of_not_lt he) hle
        · exact hall x hx

theorem computeActual1RM_some {recs : List (ℕ × ℚ × ℕ)} {q : ℚ × ℕ}
    (h : computeActual1RM recs = some q) :
    0 < q.1 ∧ (∃ e ∈ recs, e.2 = q) ∧ (∀ e ∈ recs, e.2.1 ≤ q.1) := by
  unfold computeActual1RM at h
  by_cases hb : (recs.foldl (fun acc e =>
      if e.2.1 > acc.1 then (e.2.1, e.2.2) else acc) ((0 : ℚ), (0 : ℕ))).1 > 0
  · rw [if_pos hb] at h
    obtain ⟨hcase, _, hall⟩ := maxFold_char recs (0, 0) _ rfl
    rcases Option.some_inj.mp h with rfl
    rcases hcase with hc | hex
    · rw [hc] at hb
      exact absurd hb (by norm_num)
    · exact ⟨hb, by
        rcases hex with ⟨e, he, hc⟩
        exact ⟨e, he, hc.symm⟩, hall⟩
  · rw [if_neg hb] at h
    cases h

theorem qualifiesGE_iff {s : ExerciseSet} :
    qualifiesGE s = true ↔
      (s.type ≠ SetKind.warmup ∧ s.weight_kg ≠ 0 ∧ s.reps ≠ 0) := by
  unfold qualifiesGE
  simp [and_assoc]

theorem mem_wsStream {t : String} {ws : List Workout} {x : ℕ × ℚ × ℕ} :
    x ∈ wsStream t ws ↔ ∃ w ∈ ws,
      hasQualifyingSet t w x.1 x.2.1 ∧ w.start_time = x.2.2 := by
  constructor
  · intro hx
    rcases List.mem_flatMap.mp hx with ⟨w, hw, hx⟩
    rcases List.mem_flatMap.mp hx with ⟨ex, hex, hx⟩
    rcases List.mem_filter.mp hex with ⟨hexmem, hexid⟩
    rcases List.mem_map.mp hx with ⟨s, hs, rfl⟩
    rcases List.mem_filter.mp hs with ⟨hsmem, hq⟩
    rcases qualifiesGE_iff.mp hq with ⟨h1, h2, h3⟩
    exact ⟨w, hw, ⟨ex, hexmem, eq_of_beq hexid, s, hsmem, h1, h2, h3, rfl, rfl⟩, rfl⟩
  · rintro ⟨w, hw, ⟨ex, hexmem, hexid, s, hsmem, h1, h2, h3, hk, hwt⟩, hd⟩
    refine List.mem_flatMap.mpr ⟨w, hw, ?_⟩
    refine List.mem_flatMap.mpr ⟨ex,
      List.mem_filter.mpr ⟨hexmem, beq_iff_eq.mpr hexid⟩, ?_⟩
    refine List.mem_map.mpr ⟨s,
      List.mem_filter.mpr ⟨hsmem, qualifiesGE_iff.mpr ⟨h1, h2, h3⟩⟩, ?_⟩
    rw [hk, hwt, hd]

/-- The heart of C6: whatever `actual1RMMap` reports for a filter-passing
template id is the weight of some qualifying set (with an achieving
workout's start date) and bounds every qualifying set's weight. -/
theorem actual1RM_lookup_char (ts : List ExerciseTemplate) (ws : List Workout)
    (searchTerm : Option String) (tpl : ExerciseTemplate)
    (htpl : tpl ∈ filterTemplates searchTerm ts) (wt : ℚ) (d : ℕ)
    (hact : mapGet (actual1RMMap ((getWorkouts ws none none).foldl
        (processWorkout ((filterTemplates searchTerm ts).map (fun t => t.id)))
        ([], [])).2) tpl.id = some (wt, d)) :
    (∃ w ∈ ws, ∃ k, hasQualifyingSet tpl.id w k wt ∧ w.start_time = d)
    ∧ (∀ w ∈ ws, ∀ k wt', hasQualifyingSet tpl.id w k wt' → wt' ≤ wt) := by
  have hin : tpl.id ∈ (filterTemplates searchTerm ts).map (fun t => t.id) :=
    List.mem_map.mpr ⟨tpl, htpl, rfl⟩
  have hrecnodup : KeysNodup (((getWorkouts ws none none).foldl
      (processWorkout ((filterTemplates searchTerm ts).map (fun t => t.id)))
      ([], [])).2) :=
    records_keysNodup _ _ _ (by simp [KeysNodup])
  rw [actual1RMMap_mapGet _ hrecnodup] at hact
  have hrecords := wsFold_records_mapGet
    ((filterTemplates searchTerm ts).map (fun t => t.id)) tpl.id hin
    (getWorkouts ws none none) ([], [])
  cases hrec : mapGet (((getWorkouts ws none none).foldl
      (processWorkout ((filterTemplates searchTerm ts).map (fun t => t.id)))
      ([], [])).2) tpl.id with
  | none =>
    rw [hrec] at hact
    exact absurd hact (by simp)
  | some recs =>
    rw [hrec] at hact hrecords
    have hact' : computeActual1RM recs = some (wt, d) := hact
    by_cases hany : ((getWorkouts ws none none).any (fun w =>
        w.exercises.any (fun ex => ex.exercise_template_id == tpl.id))) = true
    · rw [if_pos hany] at hrecords
      have hrecs : recs = streamFold []
          (wsStream tpl.id (getWorkouts ws none none)) :=
        Option.some_inj.mp hrecords
      obtain ⟨hpos, ⟨entry, hentry, hq⟩, hall⟩ := computeActual1RM_some hact'
      have hstreamnodup : KeysNodup recs := by
        rw [hrecs]
        exact KeysNodup_streamFold _ (by simp [KeysNodup])
      constructor
      · have hgetk : mapGet recs entry.1 = some entry.2 :=
          mapGet_of_mem hstreamnodup hentry
        rw [hrecs, streamFold_mapGet] at hgetk
        obtain ⟨_, hfind⟩ := keyFold_none_char _ _ hgetk
        have hqmem := List.mem_of_find?_eq_some hfind
        rcases List.mem_map.mp hqmem with ⟨x, hxf, hx2⟩
        rcases List.mem_filter.mp hxf with ⟨hxs, _⟩
        rcases mem_wsStream.mp hxs with ⟨w, hw, hq', hd⟩
        obtain ⟨k', wt', d'⟩ := x
        have hwd : (wt', d') = ((wt, d) : ℚ × ℕ) := by
          rw [show ((wt', d') : ℚ × ℕ) = (k', wt', d').2 from rfl, hx2, hq]
        have hwt' : wt' = wt := (Prod.mk.injEq _ _ _ _ ▸ hwd).1
        have hd' : d' = d := (Prod.mk.injEq _ _ _ _ ▸ hwd).2
        refine ⟨w, (getWorkouts_none_perm ws).mem_iff.mp hw, k', ?_, ?_⟩
        · rw [← hwt']
          exact hq'
        · rw [hd, hd']
      · intro w hw k wt' hq'
        have hwsorted : w ∈ getWorkouts ws none none :=
          (getWorkouts_none_perm ws).mem_iff.mpr hw
        have hx : ((k, wt', w.start_time) : ℕ × ℚ × ℕ) ∈
            wsStream tpl.id (getWorkouts ws none none) :=
          mem_wsStream.mpr ⟨w, hwsorted, hq', rfl⟩
        have hmemys : ((wt', w.start_time) : ℚ × ℕ) ∈
            ((wsStream tpl.id (getWorkouts ws none none)).filter
              (fun e => e.1 == k)).map (fun e => e.2) :=
          List.mem_map.mpr ⟨(k, wt', w.start_time),
            List.mem_filter.mpr ⟨hx, by simp⟩, rfl⟩
        cases hck : keyFold none (((wsStream tpl.id
            (getWorkouts ws none none)).filter (fun e => e.1 == k)).map
              (fun e => e.2)) with
        | none =>
          rw [(keyFold_none_eq_none_iff _).mp hck] at hmemys
          cases hmemys
        | some q' =>
          have hgetk : mapGet recs k = some q' := by
            rw [hrecs, streamFold_mapGet]
            exact hck
          obtain ⟨hmax, _⟩ := keyFold_none_char _ _ hck
          have hwtb : wt' ≤ q'.1 := hmax _ hmemys
          have hqmem' : (k, q') ∈ recs := mapGet_some_mem hgetk
          have hqb : q'.1 ≤ wt := hall (k, q') hqmem'
          exact le_trans hwtb hqb
    · rw [if_neg hany] at hrecords
      cases hrecords

/-- C6: whenever a summary reports `actual1RM = some (wt, d)`, `wt` is the
single heaviest weight among all qualifying (non-warm-up, truthy weight
and reps) sets of that exercise at *any* rep count across the fetched
workouts, and `d` is the start date of a workout achieving it. -/
theorem C6_actual1RM_any_rep_count (ts : List ExerciseTemplate) (ws : List Workout)
    (searchTerm : Option String) (excludeUnused : Bool) :
    ∀ e ∈ getExercises ts ws searchTerm excludeUnused none none,
      ∀ wt d, e.actual1RM = some (wt, d) →
        (∃ w ∈ ws, ∃ k, hasQualifyingSet e.id w k wt ∧ w.start_time = d)
        ∧ (∀ w ∈ ws, ∀ k wt', hasQualifyingSet e.id w k wt' → wt' ≤ wt) := by
  intro e he wt d hact
  unfold getExercises at he
  simp only [] at he
  split_ifs at he with h1 h2 h3
  · cases he
  · cases he
  all_goals
    rw [List.Perm.mem_iff (List.perm_insertionSort _ _)] at he
  · replace he := List.mem_of_mem_filter he
    rcases List.mem_map.mp he with ⟨tpl, htpl, rfl⟩
    exact actual1RM_lookup_char ts ws searchTerm tpl htpl wt d hact
  · rcases List.mem_map.mp he with ⟨tpl, htpl, rfl⟩
    exact actual1RM_lookup_char ts ws searchTerm tpl htpl wt d hact

/-- C6 witnessed on the spec's example: a 110 kg × 8 set and a 90 kg × 1
set yield `actual1RM` 110 kg (not the 90 kg 1-rep set), achieved on the
workout's date. -/
theorem C6_actual1RM_any_rep_count_witness :
    (∃ w ∈ [heavyEightWorkout], ∃ k, hasQualifyingSet "squat1" w k 110
      ∧ w.start_time = 7000)
    ∧ (∀ w ∈ [heavyEightWorkout], ∀ k wt',
        hasQualifyingSet "squat1" w k wt' → wt' ≤ 110) := by
  have heval : getExercises [squatTemplate] [heavyEightWorkout] none false none none =
      [{ id := "squat1", name := "Squat (Barbell)", frequency := 1,
         estimated1RM := some (683/5, 7000), actual1RM := some (110, 7000),
         type := "weight_reps", primary_muscle_group := "Legs",
         secondary_muscle_groups := [], equipment := "barbell" }] := by
    norm_num [getExercises, getWorkouts, filterTemplates, processWorkout,
      processExerciseEntry, processSet, mapSet, mapGet, mapHas, recUpd,
      estimated1RMMap, actual1RMMap, computeEstimated1RM, computeActual1RM,
      calculateEstimated1RMBrzycki, brzyckiFormula, isIntegerQ, jsRound, freqDesc,
      workoutDateDesc, List.insertionSort, List.orderedInsert, heavyEightWorkout,
      squatTemplate, mkSimpleWorkout, mkSetEntry, List.filter, List.foldl,
      List.find?]
  exact C6_actual1RM_any_rep_count [squatTemplate] [heavyEightWorkout] none false _
    (by rw [heval]; exact List.mem_singleton.mpr rfl) 110 7000 rfl

/-! ## C2: muscle-volume aggregation and warmup sets -/

theorem volSum_nil : volSum [] = 0 := by
  simp [volSum]

theorem volSum_cons (s : ExerciseSet) (t : List ExerciseSet) :
    volSum (s :: t) = s.weight_kg * (s.reps : ℚ) + volSum t := by
  simp [volSum]

theorem volSum_append (a b : List ExerciseSet) :
    volSum (a ++ b) = volSum a + volSum b := by
  simp [volSum]

theorem volSum_pos {sets : List ExerciseSet}
    (hpos : ∀ s ∈ sets, 0 < s.weight_kg ∧ 0 < s.reps) (hne : sets ≠ []) :
    0 < volSum sets := by
  unfold volSum
  apply List.sum_pos
  · intro x hx
    rcases List.mem_map.mp hx with ⟨s, hs, rfl⟩
    rcases hpos s hs with ⟨hw, hr⟩
    exact mul_pos hw (by exact_mod_cast hr)
  · simpa using hne

theorem mem_muscleSetsOfExs {ts : List ExerciseTemplate} {g : String}
    {exs : List WorkoutExercise} {s : ExerciseSet}
    (h : s ∈ muscleSetsOfExs ts g exs) : ∃ ex ∈ exs, s ∈ ex.sets := by
  unfold muscleSetsOfExs at h
  rcases List.mem_flatMap.mp h with ⟨ex, hex, hs⟩
  exact ⟨ex, (List.mem_filter.mp hex).1, hs⟩

theorem muscleAddSet_self (g : String) (vols : List (String × ℚ × ℕ))
    (s : ExerciseSet) (v : ℚ) (n : ℕ)
    (hpos : 0 < s.weight_kg ∧ 0 < s.reps)
    (hg : mapGet vols g = some (v, n)) :
    mapGet (muscleAddSet g vols s) g =
      some (v + s.weight_kg * (s.reps : ℚ), n + 1) := by
  simp only [muscleAddSet, hg, Option.getD_some]
  rw [if_pos ⟨hpos.1.ne', Nat.pos_iff_ne_zero.mp hpos.2⟩]
  exact mapGet_mapSet_self _ _ _

theorem muscleAddSet_ne (g g' : String) (vols : List (String × ℚ × ℕ))
    (s : ExerciseSet) (h : g' ≠ g) :
    mapGet (muscleAddSet g vols s) g' = mapGet vols g' := by
  simp only [muscleAddSet]
  split_ifs with hc
  · exact mapGet_mapSet_ne _ _ _ _ h
  · exact mapGet_mapSet_ne _ _ _ _ h

theorem setsFoldVol (g : String) :
    ∀ (sets : List ExerciseSet) (vols : List (String × ℚ × ℕ)) (v : ℚ) (n : ℕ),
      (∀ s ∈ sets, 0 < s.weight_kg ∧ 0 < s.reps) →
      mapGet vols g = some (v, n) →
      mapGet (sets.foldl (muscleAddSet g) vols) g =
        some (v + volSum sets, n + sets.length) := by
  intro sets
  induction sets with
  | nil =>
    intro vols v n _ hg
    simpa [volSum] using hg
  | cons s t ih =>
    intro vols v n hpos hg
    rw [List.foldl_cons]
    have hstep := muscleAddSet_self g vols s v n (hpos s (by simp)) hg
    have hrec := ih (muscleAddSet g vols s) (v + s.weight_kg * (s.reps : ℚ)) (n + 1)
      (fun x hx => hpos x (by simp [hx])) hstep
    rw [hrec]
    have h1 : v + s.weight_kg * (s.reps : ℚ) + volSum t = v + volSum (s :: t) := by
      rw [volSum_cons]; ring
    have h2 : n + 1 + t.length = n + (s :: t).length := by
      simp only [List.length_cons]; omega
    rw [h1, h2]

theorem setsFoldVol_ne (g g' : String) (h : g' ≠ g) :
    ∀ (sets : List ExerciseSet) (vols : List (String × ℚ × ℕ)),
      mapGet (sets.foldl (muscleAddSet g) vols) g' = mapGet vols g' := by
  intro sets
  induction sets with
  | nil => intro vols; rfl
  | cons s t ih =>
    intro vols
    rw [List.foldl_cons, ih, muscleAddSet_ne g g' vols s h]

theorem muscleInit_ne (vols : List (String × ℚ × ℕ)) (g g' : String)
    (h : g' ≠ g) : mapGet (muscleInit vols g) g' = mapGet vols g' := by
  unfold muscleInit
  cases hg : mapGet vols g with
  | none => exact mapGet_mapSet_ne _ _ _ _ h
  | some v =>
    show mapGet (if v.1 = 0 then mapSet vols g (0, 0) else vols) g' = mapGet vols g'
    split_ifs with hv
    · exact mapGet_mapSet_ne _ _ _ _ h
    · rfl

theorem muscleInit_inv (vols : List (String × ℚ × ℕ)) (g : String)
    (stream : List ExerciseSet)
    (hstream : ∀ s ∈ stream, 0 < s.weight_kg ∧ 0 < s.reps)
    (hInv : VolInv vols g stream) :
    mapGet (muscleInit vols g) g = some (volSum stream, stream.length) := by
  unfold muscleInit
  rcases hInv with ⟨hnone, hnil⟩ | hsome
  · rw [hnone]
    subst hnil
    rw [mapGet_mapSet_self]
    simp [volSum]
  · rw [hsome]
    show mapGet (if volSum stream = 0 then mapSet vols g (0, 0) else vols) g =
      some (volSum stream, stream.length)
    by_cases hv : volSum stream = 0
    · have hnil : stream = [] := by
        by_contra hne
        exact absurd hv (ne_of_gt (volSum_pos hstream hne))
      rw [if_pos hv, mapGet_mapSet_self]
      subst hnil
      simp [volSum]
    · rw [if_neg hv]
      exact hsome

theorem muscleAddExercise_not_resolves (ts : List ExerciseTemplate) (g : String)
    (vols : List (String × ℚ × ℕ)) (ex : WorkoutExercise)
    (h : resolvesTo ts g ex = false) :
    mapGet (muscleAddExercise ts vols ex) g = mapGet vols g := by
  unfold muscleAddExercise
  unfold resolvesTo at h
  cases hres : resolveTemplate ts ex.exercise_template_id with
  | none => rfl
  | some tmpl =>
    rw [hres] at h
    have hne : g ≠ tmpl.primary_muscle_group := by
      intro he
      rw [he] at h
      simp at h
    show mapGet (ex.sets.foldl (muscleAddSet tmpl.primary_muscle_group)
      (muscleInit vols tmpl.primary_muscle_group)) g = mapGet vols g
    rw [setsFoldVol_ne _ _ hne, muscleInit_ne _ _ _ hne]

theorem volInv_addExercise (ts : List ExerciseTemplate) (g : String)
    (vols : List (String × ℚ × ℕ)) (ex : WorkoutExercise)
    (stream : List ExerciseSet)
    (hexpos : ∀ s ∈ ex.sets, 0 < s.weight_kg ∧ 0 < s.reps)
    (hstream : ∀ s ∈ stream, 0 < s.weight_kg ∧ 0 < s.reps)
    (hInv : VolInv vols g stream) :
    VolInv (muscleAddExercise ts vols ex) g
      (stream ++ (if resolvesTo ts g ex then ex.sets else [])) := by
  by_cases hres : resolvesTo ts g ex = true
  · rw [if_pos hres]
    unfold resolvesTo at hres
    cases hfind : resolveTemplate ts ex.exercise_template_id with
    | none => rw [hfind] at hres; cases hres
    | some tmpl =>
      rw [hfind] at hres
      have hg : tmpl.primary_muscle_group = g := by simpa using hres
      have hinit := muscleInit_inv vols g stream hstream hInv
      have hfold := setsFoldVol g ex.sets (muscleInit vols g) (volSum stream)
        stream.length hexpos hinit
      right
      unfold muscleAddExercise
      rw [hfind]
      show mapGet (ex.sets.foldl (muscleAddSet tmpl.primary_muscle_group)
        (muscleInit vols tmpl.primary_muscle_group)) g = _
      rw [hg, hfold, volSum_append, List.length_append]
  · rw [if_neg hres]
    have hne := muscleAddExercise_not_resolves ts g vols ex
      (Bool.not_eq_true _ ▸ hres)
    unfold VolInv at hInv ⊢
    rw [hne, List.append_nil]
    exact hInv

theorem volInv_exsFold (ts : List ExerciseTemplate) (g : String) :
    ∀ (exs : List WorkoutExercise) (vols : List (String × ℚ × ℕ))
      (stream : List ExerciseSet),
      (∀ ex ∈ exs, ∀ s ∈ ex.sets, 0 < s.weight_kg ∧ 0 < s.reps) →
      (∀ s ∈ stream, 0 < s.weight_kg ∧ 0 < s.reps) →
      VolInv vols g stream →
      VolInv (exs.foldl (muscleAddExercise ts) vols) g
        (stream ++ muscleSetsOfExs ts g exs) := by
  intro exs
  induction exs with
  | nil =>
    intro vols stream _ _ hInv
    simpa [muscleSetsOfExs] using hInv
  | cons ex t ih =>
    intro vols stream hpos hstream hInv
    rw [List.foldl_cons]
    have hstep := volInv_addExercise ts g vols ex stream (hpos ex (by simp)) hstream hInv
    have hstream' : ∀ s ∈ stream ++ (if resolvesTo ts g ex then ex.sets else []),
        0 < s.weight_kg ∧ 0 < s.reps := by
      intro s hs
      rcases List.mem_append.mp hs with h | h
      · exact hstream s h
      · split_ifs at h with hr
        · exact hpos ex (by simp) s h
        · cases h
    have hrec := ih (muscleAddExercise ts vols ex)
      (stream ++ (if resolvesTo ts g ex then ex.sets else []))
      (fun e he => hpos e (by simp [he])) hstream' hstep
    rw [List.append_assoc] at hrec
    have hstreameq : (if resolvesTo ts g ex then ex.sets else []) ++ muscleSetsOfExs ts g t
        = muscleSetsOfExs ts g (ex :: t) := by
      by_cases hr : resolvesTo ts g ex = true
      · simp [muscleSetsOfExs, List.filter_cons, hr]
      · simp [muscleSetsOfExs, List.filter_cons, hr]
    rw [hstreameq] at hrec
    exact hrec

theorem volInv_wsFold (ts : List ExerciseTemplate) (g : String) :
    ∀ (ws : List Workout) (vols : List (String × ℚ × ℕ))
      (stream : List ExerciseSet),
      (∀ w ∈ ws, ∀ ex ∈ w.exercises, ∀ s ∈ ex.sets, 0 < s.weight_kg ∧ 0 < s.reps) →
      (∀ s ∈ stream, 0 < s.weight_kg ∧ 0 < s.reps) →
      VolInv vols g stream →
      VolInv (ws.foldl (fun vols w => w.exercises.foldl (muscleAddExercise ts) vols) vols)
        g (stream ++ muscleSetsOf ts g ws) := by
  intro ws
  induction ws with
  | nil =>
    intro vols stream _ _ hInv
    simpa [muscleSetsOf] using hInv
  | cons w t ih =>
    intro vols stream hpos hstream hInv
    rw [List.foldl_cons]
    have hstep := volInv_exsFold ts g w.exercises vols stream
      (fun ex hex => hpos w (by simp) ex hex) hstream hInv
    have hstream' : ∀ s ∈ stream ++ muscleSetsOfExs ts g w.exercises,
        0 < s.weight_kg ∧ 0 < s.reps := by
      intro s hs
      rcases List.mem_append.mp hs with h | h
      · exact hstream s h
      · rcases mem_muscleSetsOfExs h with ⟨ex, hex, hsx⟩
        exact hpos w (by simp) ex hex s hsx
    have hrec := ih (w.exercises.foldl (muscleAddExercise ts) vols)
      (stream ++ muscleSetsOfExs ts g w.exercises)
      (fun x hx ex hex => hpos x (by simp [hx]) ex hex) hstream' hstep
    rw [List.append_assoc] at hrec
    have hstreameq : muscleSetsOfExs ts g w.exercises ++ muscleSetsOf ts g t
        = muscleSetsOf ts g (w :: t) := by
      simp [muscleSetsOf, muscleSetsOfExs]
    rw [hstreameq] at hrec
    exact hrec

theorem calcVols_char (ws : List Workout) (ts : List ExerciseTemplate)
    (g : String) (hpos : allSetsPositive ws) :
    VolInv (ws.foldl (fun vols w => w.exercises.foldl (muscleAddExercise ts) vols)
      ([] : List (String × ℚ × ℕ))) g (muscleSetsOf ts g ws) := by
  have h := volInv_wsFold ts g ws [] [] hpos (by simp)
    (Or.inl ⟨rfl, rfl⟩)
  simpa using h

/-- C2 counterexample: a workout containing only a warmup set of
60 kg × 10 is credited 600 volume and 1 set for Legs by
`calculateVolumeByMuscleGroup` — warmup sets are NOT excluded (the
repository's own volume test expects the warmup contribution, unlike
ProgressTracker and ExerciseSummaryBuilder which do skip warmups). -/
theorem C2_warmup_counted_counterexample :
    calculateVolumeByMuscleGroup [warmupOnlyWorkout] [squatTemplate] =
      [{ muscleGroup := "Legs", volume := 600, sets := 1 }] ∧
    (600 : ℤ) ≠ 0 ∧ (1 : ℕ) ≠ 0 := by
  refine ⟨?_, by decide, by decide⟩
  norm_num [calculateVolumeByMuscleGroup, muscleAddExercise, muscleAddSet,
    muscleInit, resolveTemplate, mapGet, mapSet, mapHas, volDesc, jsRound,
    warmupOnlyWorkout, squatTemplate, mkSimpleWorkout, mkSetEntry,
    List.insertionSort, List.orderedInsert, List.find?, List.foldl]

/-- C2 (amended): `calculateVolumeByMuscleGroup` does NOT exclude sets
with `type = warmup`.  Under positive weights and reps, every emitted
muscle bucket's volume is the rounded Σ weight·reps over ALL sets —
warmups included — of the exercises resolving to that muscle group, and
its set count is the number of all those sets. -/
theorem C2_muscle_volume_amended (ws : List Workout) (ts : List ExerciseTemplate)
    (hpos : allSetsPositive ws) :
    ∀ e ∈ calculateVolumeByMuscleGroup ws ts,
      e.volume = jsRound (volSum (muscleSetsOf ts e.muscleGroup ws)) ∧
      e.sets = (muscleSetsOf ts e.muscleGroup ws).length := by
  intro e he
  unfold calculateVolumeByMuscleGroup at he
  simp only [] at he
  rcases List.mem_map.mp he with ⟨m, -, rfl⟩
  have hchar := calcVols_char ws ts m hpos
  have hgetD : ((mapGet (ws.foldl
      (fun vols w => w.exercises.foldl (muscleAddExercise ts) vols)
      ([] : List (String × ℚ × ℕ))) m).getD (0, 0)) =
      (volSum (muscleSetsOf ts m ws), (muscleSetsOf ts m ws).length) := by
    rcases hchar with ⟨hnone, hnil⟩ | hsome
    · rw [hnone, hnil]
      simp [volSum]
    · rw [hsome]
      rfl
  refine ⟨?_, ?_⟩
  · show jsRound ((mapGet (ws.foldl
      (fun vols w => w.exercises.foldl (muscleAddExercise ts) vols)
      ([] : List (String × ℚ × ℕ))) m).getD (0, 0)).1 =
      jsRound (volSum (muscleSetsOf ts m ws))
    rw [hgetD]
  · show ((mapGet (ws.foldl
      (fun vols w => w.exercises.foldl (muscleAddExercise ts) vols)
      ([] : List (String × ℚ × ℕ))) m).getD (0, 0)).2 =
      (muscleSetsOf ts m ws).length
    rw [hgetD]

/-- C2 amended-claim witness: for a 100 kg × 5 normal set (one workout)
plus a 60 kg × 10 warmup set (another workout) on the squat, the Legs
bucket holds volume 1100 = 100·5 + 60·10 and 2 sets — the warmup set is
counted. -/
theorem C2_muscle_volume_amended_witness :
    allSetsPositive [tieWorkoutEarly, warmupOnlyWorkout] ∧
    (1100 : ℤ) = jsRound (volSum (muscleSetsOf [squatTemplate] "Legs"
      [tieWorkoutEarly, warmupOnlyWorkout])) ∧
    (2 : ℕ) = (muscleSetsOf [squatTemplate] "Legs"
      [tieWorkoutEarly, warmupOnlyWorkout]).length := by
  have hpos : allSetsPositive [tieWorkoutEarly, warmupOnlyWorkout] := by
    unfold allSetsPositive
    decide
  have heval : calculateVolumeByMuscleGroup [tieWorkoutEarly, warmupOnlyWorkout]
      [squatTemplate] = [{ muscleGroup := "Legs", volume := 1100, sets := 2 }] := by
    norm_num [calculateVolumeByMuscleGroup, muscleAddExercise, muscleAddSet,
      muscleInit, resolveTemplate, mapGet, mapSet, mapHas, volDesc, jsRound,
      tieWorkoutEarly, warmupOnlyWorkout, squatTemplate, mkSimpleWorkout,
      mkSetEntry, List.insertionSort, List.orderedInsert, List.find?, List.foldl]
  have h := C2_muscle_volume_amended [tieWorkoutEarly, warmupOnlyWorkout]
    [squatTemplate] hpos { muscleGroup := "Legs", volume := 1100, sets := 2 }
    (by rw [heval]; exact List.mem_singleton.mpr rfl)
  exact ⟨hpos, h.1, h.2⟩

end HevyMCP
